import Mathlib

/-!
# Boot control block and argument resolution (`bootloader.cpp`)

A shallow embedding of `bootloader.cpp`: the record store facade
(`get_bootloader_message`, `set_bootloader_message`, `read_wipe_package`), its
raw-flash and block-device backends, and the argument resolver `get_args`.

Bytes are natural numbers, byte buffers are lists of bytes, and a C string read
at a pointer is the run of bytes before the first NUL.  Logging (`LOGI`, `LOGE`,
`printf`) has no effect on any value and is left out.
-/

namespace Bootloader

/-! ## C strings and the C library routines the file calls -/

/-- Bytes of an ASCII literal. -/
def bytes (s : String) : List Nat := s.toList.map Char.toNat

/-- The C string found at a pointer: the bytes before the first NUL. -/
def cstr (s : List Nat) : List Nat := s.takeWhile (fun b => b != 0)

/-- A `char*` value: `none` is the null pointer, `some s` points at the bytes `s`. -/
abbrev Arg := Option (List Nat)

/-- The string a `char*` designates.  Reading through a null pointer is undefined in C;
no well-formed argument vector has one below `argc`, and it is read as the empty string. -/
def Arg.str (a : Arg) : List Nat := cstr (a.getD [])

/-- C library `strtok(s, delim)` on the buffer `buf`, resuming at the saved position `pos`
(`pos = 0` for a first call on the buffer).  Skips delimiter bytes, returns `none` when the
string ends there, otherwise the token up to the next delimiter or NUL; a delimiter that
ends the token is overwritten with NUL.  Yields the token, the buffer and the new saved
position.  Running off the buffer counts as reaching the end of the string. -/
def strtok (buf : List Nat) (pos : Nat) (delim : List Nat) :
    Option (List Nat) × List Nat × Nat :=
  let skipped := ((buf.drop pos).takeWhile (fun b => delim.contains b)).length
  let start := pos + skipped
  let tok := (buf.drop start).takeWhile (fun b => b != 0 && !delim.contains b)
  if tok = [] then (none, buf, start)
  else
    let stop := start + tok.length
    if buf.getD stop 0 = 0 then (some tok, buf, stop)
    else (some tok, buf.set stop 0, stop + 1)

/-- C library `strlcpy(dst, src, size)`: copies at most `size - 1` bytes of the string `src`
to the front of `dst` and terminates it; the bytes of `dst` behind the terminator stay. -/
def strlcpy (dst src : List Nat) (size : Nat) : List Nat :=
  if size = 0 then dst
  else
    let s := (cstr src).take (size - 1)
    s ++ [0] ++ dst.drop (s.length + 1)

/-- C library `strlcat(dst, src, size)`: appends the string `src` to the string in `dst`,
never writing past `size` bytes and always terminating; when `dst` holds no NUL within
`size` bytes nothing is written. -/
def strlcat (dst src : List Nat) (size : Nat) : List Nat :=
  let dlen := (cstr (dst.take size)).length
  if size - dlen = 0 then dst
  else
    let s := (cstr src).take (size - dlen - 1)
    dst.take dlen ++ s ++ [0] ++ dst.drop (dlen + s.length + 1)

/-- The bytes one `fgets(buf, size, fp)` stores before the terminator: at most `n = size - 1`
bytes of the stream, ending after the first newline. -/
def read_line : Nat → List Nat → List Nat
  | 0, _ => []
  | _, [] => []
  | n + 1, b :: bs => if b = 10 then [b] else b :: read_line n bs

/-- C library `fgets(buf, size, fp)` over the unread bytes `fp` of the stream: `none` at end
of file, otherwise the bytes stored in `buf` (without the terminator) and the bytes left. -/
def fgets (size : Nat) (fp : List Nat) : Option (List Nat × List Nat) :=
  match fp with
  | [] => none
  | _ :: _ =>
    let line := read_line (size - 1) fp
    some (line, fp.drop line.length)

/-! ## Data model -/

/-- Modelled from the spec: `bootloader.h` is not among the sources.  Widths of the fields of
`struct bootloader_message` (`tail` stands for everything declared after `recovery`) and the
two offsets `BOOTLOADER_MESSAGE_OFFSET_IN_MISC` and `WIPE_PACKAGE_OFFSET_IN_MISC`. -/
structure Layout where
  command : Nat
  status : Nat
  recovery : Nat
  tail : Nat
  message_offset : Nat
  wipe_package_offset : Nat
deriving DecidableEq, Repr

/-- Value of `sizeof(bootloader_message)`. -/
def Layout.sizeof (L : Layout) : Nat := L.command + L.status + L.recovery + L.tail

/-- The record `struct bootloader_message`, one byte buffer per field. -/
structure bootloader_message where
  command : List Nat
  status : List Nat
  recovery : List Nat
  tail : List Nat
deriving DecidableEq, Repr

/-- The record as stored: its fields in declaration order. -/
def bootloader_message.toBytes (m : bootloader_message) : List Nat :=
  m.command ++ m.status ++ m.recovery ++ m.tail

/-- The record held in `sizeof(bootloader_message)` bytes of memory. -/
def bootloader_message.ofBytes (L : Layout) (bs : List Nat) : bootloader_message :=
  { command := bs.take L.command
    status := (bs.drop L.command).take L.status
    recovery := (bs.drop (L.command + L.status)).take L.recovery
    tail := (bs.drop (L.command + L.status + L.recovery)).take L.tail }

/-- Result of `memset(&boot, 0, sizeof(boot))`. -/
def bootloader_message.zeroed (L : Layout) : bootloader_message :=
  { command := List.replicate L.command 0
    status := List.replicate L.status 0
    recovery := List.replicate L.recovery 0
    tail := List.replicate L.tail 0 }

/-- Every field has the width the layout gives it. -/
def bootloader_message.WellSized (L : Layout) (m : bootloader_message) : Prop :=
  m.command.length = L.command ∧ m.status.length = L.status ∧
    m.recovery.length = L.recovery ∧ m.tail.length = L.tail

/-- The fake `struct Volume`: the strings held in `fs_type[8]` and `blk_device[256]`. -/
structure Volume where
  fs_type : List Nat
  blk_device : List Nat
deriving DecidableEq, Repr

/-! ## Storage services consumed by the record store -/

/-- Modelled from the spec: `mtdutils` is not among the sources.  One raw-flash partition as
the flash partition service presents it: the page size `mtd_partition_info` reports (`none`
when the query fails), whether `mtd_read_partition` and `mtd_write_partition` yield a context,
the bytes `mtd_read_data` delivers from the first page on, and whether `mtd_write_data` and
`mtd_write_close` succeed. -/
structure MtdPartition where
  write_size : Option Nat
  read_opens : Bool
  data : List Nat
  write_opens : Bool
  write_completes : Bool
  close_succeeds : Bool
deriving DecidableEq, Repr

/-- A block device node: its bytes, and whether `fsync` on it succeeds.  Its size is fixed:
a seek past the end and a transfer that would cross the end fail. -/
structure BlockDevice where
  content : List Nat
  sync_succeeds : Bool
deriving DecidableEq, Repr

/-- Calls that reach a storage service, in the order they are made. -/
inductive Event where
  | mtd_scan_partitions
  | mtd_find_partition_by_name (name : List Nat)
  | mtd_partition_info (name : List Nat)
  | mtd_read_partition (name : List Nat)
  | mtd_read_data (name : List Nat) (size : Nat)
  | mtd_read_close (name : List Nat)
  | mtd_write_partition (name : List Nat)
  | mtd_write_data (name : List Nat) (data : List Nat)
  | mtd_write_close (name : List Nat)
  | stat (fn : List Nat)
  | open_rdonly (fn : List Nat)
  | open_wronly_sync (fn : List Nat)
  | lseek (fn : List Nat) (offset : Nat)
  | read_fully (fn : List Nat) (size : Nat)
  | write_fully (fn : List Nat) (data : List Nat)
  | fsync (fn : List Nat)
  | close (fn : List Nat)
deriving DecidableEq, Repr

/-- The storage the process sees: raw-flash partitions by name, block device nodes by path,
and the calls made so far. -/
structure World where
  mtd : List Nat → Option MtdPartition
  blk : List Nat → Option BlockDevice
  log : List Event

/-- Record one call to a storage service. -/
def World.emit (w : World) (e : Event) : World :=
  { w with log := w.log ++ [e] }

/-- Replace the partition called `name`. -/
def World.setMtd (w : World) (name : List Nat) (p : MtdPartition) : World :=
  { w with mtd := fun n => if n = name then some p else w.mtd n }

/-- Replace the block device at `fn`. -/
def World.setBlk (w : World) (fn : List Nat) (d : BlockDevice) : World :=
  { w with blk := fun n => if n = fn then some d else w.blk n }

/-- What `memcpy(dst, &data[off], n)` reads: `n` bytes of `data` from `off` on.  Bytes past
the end of the array are outside the object (undefined in C) and read as 0. -/
def copy_out (data : List Nat) (off n : Nat) : List Nat :=
  let got := (data.drop off).take n
  got ++ List.replicate (n - got.length) 0

/-- The array `data` after `memcpy(&data[off], src, src.length)`.  Bytes that would land past
the end of the array are outside the object (undefined in C) and do not reach `data`. -/
def copy_in (data : List Nat) (off : Nat) (src : List Nat) : List Nat :=
  data.take off ++ src.take (data.length - off) ++ data.drop (off + src.length)

/-! ## Record store: raw flash -/

/-- Number of pages to save. -/
def MISC_PAGES : Nat := 3

/-- Bootloader command is this page. -/
def MISC_COMMAND_PAGE : Nat := 1

/-- Source function `get_bootloader_message_mtd(out, v)`: return value, `*out`, storage. -/
def get_bootloader_message_mtd (L : Layout) (out : bootloader_message) (v : Volume)
    (w : World) : Int × bootloader_message × World :=
  let w := w.emit Event.mtd_scan_partitions
  let w := w.emit (Event.mtd_find_partition_by_name v.blk_device)
  match w.mtd v.blk_device with
  | none => (-1, out, w)
  | some part =>
    let w := w.emit (Event.mtd_partition_info v.blk_device)
    match part.write_size with
    | none => (-1, out, w)
    | some write_size =>
      let w := w.emit (Event.mtd_read_partition v.blk_device)
      if !part.read_opens then (-1, out, w)
      else
        let size := write_size * MISC_PAGES
        let w := w.emit (Event.mtd_read_data v.blk_device size)
        let data := part.data.take size
        let w := w.emit (Event.mtd_read_close v.blk_device)
        if data.length ≠ size then (-1, out, w)
        else
          (0, bootloader_message.ofBytes L
                (copy_out data (write_size * MISC_COMMAND_PAGE) L.sizeof), w)

/-- Source function `set_bootloader_message_mtd(in, v)`: return value and storage. -/
def set_bootloader_message_mtd (L : Layout) (msg : bootloader_message) (v : Volume)
    (w : World) : Int × World :=
  let w := w.emit Event.mtd_scan_partitions
  let w := w.emit (Event.mtd_find_partition_by_name v.blk_device)
  match w.mtd v.blk_device with
  | none => (-1, w)
  | some part =>
    let w := w.emit (Event.mtd_partition_info v.blk_device)
    match part.write_size with
    | none => (-1, w)
    | some write_size =>
      let w := w.emit (Event.mtd_read_partition v.blk_device)
      if !part.read_opens then (-1, w)
      else
        let size := write_size * MISC_PAGES
        let w := w.emit (Event.mtd_read_data v.blk_device size)
        let data := part.data.take size
        let w := w.emit (Event.mtd_read_close v.blk_device)
        if data.length ≠ size then (-1, w)
        else
          let data := copy_in data (write_size * MISC_COMMAND_PAGE) (msg.toBytes.take L.sizeof)
          let w := w.emit (Event.mtd_write_partition v.blk_device)
          if !part.write_opens then (-1, w)
          else
            let w := w.emit (Event.mtd_write_data v.blk_device data)
            if !part.write_completes then
              (-1, w.emit (Event.mtd_write_close v.blk_device))
            else
              let w := w.setMtd v.blk_device { part with data := data ++ part.data.drop size }
              let w := w.emit (Event.mtd_write_close v.blk_device)
              if !part.close_succeeds then (-1, w)
              else (0, w)

/-! ## Record store: block devices -/

/-- The `do ... while (ret && tries < 10)` loop of `wait_for_device`, `n` tries left. -/
def wait_loop (fn : List Nat) : Nat → World → World
  | 0, w => w
  | n + 1, w =>
    let w := w.emit (Event.stat fn)
    match w.blk fn with
    | some _ => w
    | none => wait_loop fn n w

/-- Source function `wait_for_device(fn)`: up to ten `stat` calls, then go on regardless. -/
def wait_for_device (fn : List Nat) (w : World) : World := wait_loop fn 10 w

/-- Source function `read_misc_partition(v, offset, size, out)`: success, `*out`, storage. -/
def read_misc_partition (v : Volume) (offset size : Nat) (out : List Nat) (w : World) :
    Bool × List Nat × World :=
  let w := wait_for_device v.blk_device w
  let w := w.emit (Event.open_rdonly v.blk_device)
  match w.blk v.blk_device with
  | none => (false, out, w)
  | some dev =>
    let w := w.emit (Event.lseek v.blk_device offset)
    if dev.content.length < offset then (false, out, w.emit (Event.close v.blk_device))
    else
      let out := out.take size ++ List.replicate (size - out.length) 0
      let w := w.emit (Event.read_fully v.blk_device size)
      if dev.content.length < offset + size then
        (false, out, w.emit (Event.close v.blk_device))
      else
        ((true, (dev.content.drop offset).take size, w.emit (Event.close v.blk_device)))

/-- Source function `write_misc_partition(v, offset, in)`: success and storage. -/
def write_misc_partition (v : Volume) (offset : Nat) (data : List Nat) (w : World) :
    Bool × World :=
  let w := wait_for_device v.blk_device w
  let w := w.emit (Event.open_wronly_sync v.blk_device)
  match w.blk v.blk_device with
  | none => (false, w)
  | some dev =>
    let w := w.emit (Event.lseek v.blk_device offset)
    if dev.content.length < offset then (false, w.emit (Event.close v.blk_device))
    else
      let w := w.emit (Event.write_fully v.blk_device data)
      if dev.content.length < offset + data.length then
        (false, w.emit (Event.close v.blk_device))
      else
        let w := w.setBlk v.blk_device
          { dev with content := dev.content.take offset ++ data ++
                                  dev.content.drop (offset + data.length) }
        let w := w.emit (Event.fsync v.blk_device)
        if !dev.sync_succeeds then (false, w.emit (Event.close v.blk_device))
        else (true, w.emit (Event.close v.blk_device))

/-! ## Record store facade -/

/-- Source function `get_bootloader_message(out)` on the configured volume `misc`. -/
def get_bootloader_message (L : Layout) (misc : Volume) (out : bootloader_message)
    (w : World) : Int × bootloader_message × World :=
  if misc.fs_type = [] then (-1, out, w)
  else if misc.fs_type = bytes "mtd" then get_bootloader_message_mtd L out misc w
  else if misc.fs_type = bytes "emmc" then
    match read_misc_partition misc L.message_offset L.sizeof [] w with
    | (false, _, w) => (-1, out, w)
    | (true, s, w) => (0, bootloader_message.ofBytes L s, w)
  else (-1, out, w)

/-- Source function `read_wipe_package(size, out)` on the configured volume `misc`. -/
def read_wipe_package (L : Layout) (misc : Volume) (size : Nat) (out : List Nat)
    (w : World) : Bool × List Nat × World :=
  if misc.fs_type = [] then (false, out, w)
  else if misc.fs_type = bytes "mtd" then (false, out, w)
  else if misc.fs_type = bytes "emmc" then
    read_misc_partition misc L.wipe_package_offset size out w
  else (false, out, w)

/-- Source function `set_bootloader_message(in)` on the configured volume `misc`. -/
def set_bootloader_message (L : Layout) (misc : Volume) (msg : bootloader_message)
    (w : World) : Int × World :=
  if misc.fs_type = [] then (-1, w)
  else if misc.fs_type = bytes "mtd" then set_bootloader_message_mtd L msg misc w
  else if misc.fs_type = bytes "emmc" then
    match write_misc_partition misc L.message_offset (msg.toBytes.take L.sizeof) w with
    | (true, w) => (0, w)
    | (false, w) => (-1, w)
  else (-1, w)

/-! ## Argument resolver -/

/-- Longest line `fgets` may store, terminator included. -/
def MAX_ARG_LENGTH : Nat := 4096

/-- Number of slots of the argument array. -/
def MAX_ARGS : Nat := 100

/-- The loop `for (*argc = 1; *argc < MAX_ARGS; ++*argc)` over the boot message, with
`n = MAX_ARGS - *argc` rounds left: each round takes the next token of `buf` and stores a copy
in slot `*argc`, the slot after the ones in `argv`.  Yields the buffer and the filled slots. -/
def boot_loop : Nat → List Nat → Nat → List Arg → List Nat × List Arg
  | 0, buf, _, argv => (buf, argv)
  | n + 1, buf, pos, argv =>
    match strtok buf pos (bytes "\n") with
    | (none, buf, _) => (buf, argv)
    | (some arg, buf, pos) => boot_loop n buf pos (argv ++ [some arg])

/-- The loop `for (*argc = 1; *argc < MAX_ARGS; ++*argc)` over the command file, with
`*argc = argv.length` and `fp` the unread bytes: each round reads one `fgets` buffer and stores
a copy of its first token in slot `*argc`; a buffer without a token leaves `*argc` as it is.
Every round consumes at least one byte, so `fuel` above the length of `fp` is never used up. -/
def file_loop : Nat → List Nat → List Arg → List Arg
  | 0, _, argv => argv
  | fuel + 1, fp, argv =>
    if MAX_ARGS ≤ argv.length then argv
    else
      match fgets MAX_ARG_LENGTH fp with
      | none => argv
      | some (buf, fp) =>
        match strtok (buf ++ [0]) 0 (bytes "\r\n") with
        | (some token, _, _) => file_loop fuel fp (argv ++ [some token])
        | (none, _, _) => file_loop fuel fp argv

/-- The loop `for (i = 1; i < *argc; ++i)` that appends every argument and a newline to
`boot.recovery`, for the indices in `is`. -/
def write_back (size : Nat) (argv : List Arg) (is : List Nat) (recovery : List Nat) :
    List Nat :=
  is.foldl (fun r i => strlcat (strlcat r (argv.getD i none).str size) (bytes "\n") size)
    recovery

/-- What one call of `get_args` leaves behind: `*argc`, the slots of `*argv` below `*argc`
that hold a value, the record handed to `set_bootloader_message`, whether `fopen` was called
on the command file, and the storage. -/
structure Resolved where
  argc : Int
  argv : List Arg
  boot : bootloader_message
  fopen_called : Bool
  world : World

/-- First block of `get_args`, "if arguments weren't supplied, look in the bootloader control
block": `*argc`, `*argv` and `boot` after it. -/
def args_from_boot_message (L : Layout) (boot : bootloader_message) (argc : Int)
    (argv : List Arg) : Int × List Arg × bootloader_message :=
  if argc ≤ 1 then
    let recovery := boot.recovery.set (L.recovery - 1) 0
    match strtok recovery 0 (bytes "\n") with
    | (some arg, recovery, pos) =>
      if arg = bytes "recovery" then
        let (recovery, argv) := boot_loop (MAX_ARGS - 1) recovery pos [some arg]
        ((argv.length : Int), argv, { boot with recovery := recovery })
      else (argc, argv, { boot with recovery := recovery })
    | (none, recovery, _) => (argc, argv, { boot with recovery := recovery })
  else (argc, argv, boot)

/-- Second block of `get_args`, "if that doesn't work, try the command file": `*argc`, `*argv`
and whether `fopen` was called.  `file` is `none` when `fopen` returns `NULL`. -/
def args_from_command_file (file : Option (List Nat)) (argc : Int) (argv : List Arg) :
    Int × List Arg × Bool :=
  if argc ≤ 1 then
    match file with
    | some fp =>
      let argv := file_loop (fp.length + 1) fp [argv.headD none]
      ((argv.length : Int), argv, true)
    | none => (argc, argv, true)
  else (argc, argv, false)

/-- Third block of `get_args`, "write the arguments we have back into the bootloader control
block": the record handed to `set_bootloader_message`. -/
def normalized_record (L : Layout) (boot : bootloader_message) (argc : Int)
    (argv : List Arg) : bootloader_message :=
  let command := strlcpy boot.command (bytes "boot-recovery") L.command
  let recovery := strlcpy boot.recovery (bytes "recovery\n") L.recovery
  let recovery := write_back L.recovery argv (List.range' 1 (argc.toNat - 1)) recovery
  { boot with command := command, recovery := recovery }

/-- Source function `get_args(argc, argv)`, on the configured volume `misc`, the storage `w`
and the command file `file` (`none` when `fopen` fails). -/
def get_args (L : Layout) (misc : Volume) (w : World) (file : Option (List Nat))
    (argc : Int) (argv : List Arg) : Resolved :=
  let boot := bootloader_message.zeroed L
  let got := get_bootloader_message L misc boot w
  let fromBoot := args_from_boot_message L got.2.1 argc argv
  let fromFile := args_from_command_file file fromBoot.1 fromBoot.2.1
  let boot := normalized_record L fromBoot.2.2 fromFile.1 fromFile.2.1
  let put := set_bootloader_message L misc boot got.2.2
  { argc := fromFile.1, argv := fromFile.2.1, boot := boot,
    fopen_called := fromFile.2.2, world := put.2 }

/-! ## Vocabulary of the claims -/

/-- The non-empty pieces of `s` between bytes of `delim`, in order. -/
def tokens (delim : List Nat) (s : List Nat) : List (List Nat) :=
  (s.splitOnP (fun b => delim.contains b)).filter (fun t => !t.isEmpty)

/-- The record the resolver works on: what `get_bootloader_message` delivers into the zeroed
record, which stays zeroed when the read fails. -/
def record_read (L : Layout) (misc : Volume) (w : World) : bootloader_message :=
  (get_bootloader_message L misc (bootloader_message.zeroed L) w).2.1

/-- One line of the command file: its bytes, and whether it ends in "\r\n" rather than
"\n". -/
abbrev Line := List Nat × Bool

/-- The line terminator: "\r\n" or "\n". -/
def line_terminator (crlf : Bool) : List Nat := if crlf then bytes "\r\n" else bytes "\n"

/-- A line as it stands in the file: its bytes and its terminator. -/
def render_line (l : Line) : List Nat := l.1 ++ line_terminator l.2

/-- The bytes of a command file made of the terminated lines `lines` followed by `last`, a
final line without terminator (empty when the file ends in a newline). -/
def file_text (lines : List Line) (last : List Nat) : List Nat :=
  (lines.map render_line).flatten ++ last

/-- A line of at most `MAX_ARG_LENGTH - 1` bytes that holds no NUL, no newline and no carriage
return. -/
def PlainLine (l : List Nat) : Prop :=
  l.length ≤ MAX_ARG_LENGTH - 1 ∧ 0 ∉ l ∧ 10 ∉ l ∧ 13 ∉ l

/-- The non-empty lines of the file, terminators stripped, in file order. -/
def nonempty_lines (lines : List Line) (last : List Nat) : List (List Nat) :=
  (lines.map (fun l => l.1) ++ [last]).filter (fun l => !l.isEmpty)

/-- The command-file loop run on the whole of `fp`. -/
def file_args (fp : List Nat) (argv : List Arg) : List Arg :=
  file_loop (fp.length + 1) fp argv

/-! ## Concrete inputs -/

/-- Modelled from the spec: the illustrative layout of its section 6, `command[40]`,
`status[32]`, `recovery[768]` and no further field; the record at offset 0 of the block
device and the wipe package at 16 KiB. -/
def spec_layout : Layout :=
  { command := 40, status := 32, recovery := 768, tail := 0,
    message_offset := 0, wipe_package_offset := 16384 }

/-- The misc volume configured as raw flash, partition `misc`. -/
def misc_mtd : Volume := { fs_type := bytes "mtd", blk_device := bytes "misc" }

/-- The misc volume configured as a block device. -/
def misc_emmc : Volume := { fs_type := bytes "emmc", blk_device := bytes "/dev/block/misc" }

/-- A volume that was never configured. -/
def misc_unset : Volume := { fs_type := [], blk_device := [] }

/-- Storage with no partition and no device node. -/
def no_storage : World := { mtd := fun _ => none, blk := fun _ => none, log := [] }

/-- An erased raw-flash partition `misc` of three pages of `ws` bytes, every byte `0xFF`, on
which every flash operation succeeds. -/
def erased_partition (ws : Nat) : MtdPartition :=
  { write_size := some ws, read_opens := true, data := List.replicate (ws * MISC_PAGES) 255,
    write_opens := true, write_completes := true, close_succeeds := true }

/-- Storage holding only the erased partition `misc`. -/
def erased_flash (ws : Nat) : World :=
  { mtd := fun n => if n = bytes "misc" then some (erased_partition ws) else none,
    blk := fun _ => none, log := [] }

/-- The zeroed record with every byte of `recovery` set to `b`. -/
def filled_recovery (L : Layout) (b : Nat) : bootloader_message :=
  { bootloader_message.zeroed L with recovery := List.replicate L.recovery b }

/-- A record of the illustrative layout with every byte of `recovery` set to `0xFF`. -/
def sample_record : bootloader_message := filled_recovery spec_layout 255

/-- The zeroed record with the string `text` at the start of `recovery`. -/
def record_with_recovery (L : Layout) (text : List Nat) : bootloader_message :=
  { bootloader_message.zeroed L with
    recovery := text ++ List.replicate (L.recovery - text.length) 0 }

/-- Storage with one block device, the one `misc_emmc` names, holding `msg` at the offset of
the record; `fsync` on it succeeds. -/
def emmc_holding (L : Layout) (msg : bootloader_message) : World :=
  { mtd := fun _ => none,
    blk := fun n =>
      if n = misc_emmc.blk_device then
        some { content := List.replicate L.message_offset 0 ++ msg.toBytes,
               sync_succeeds := true }
      else none,
    log := [] }

/-- A command file of one line: 4096 times the letter `a`, then a newline. -/
def long_line_file : List Nat := List.replicate 4096 97 ++ bytes "\n"

/-- A command file with the two lines `--update=pkg` and `--locale=en`. -/
def two_line_file : List Line := [(bytes "--update=pkg", false), (bytes "--locale=en", false)]

/-! ## Storage lemmas -/

@[simp] theorem emit_mtd (w : World) (e : Event) : (w.emit e).mtd = w.mtd := rfl
@[simp] theorem emit_blk (w : World) (e : Event) : (w.emit e).blk = w.blk := rfl
@[simp] theorem emit_log (w : World) (e : Event) : (w.emit e).log = w.log ++ [e] := rfl
@[simp] theorem setMtd_mtd_self (w : World) (n : List Nat) (p : MtdPartition) :
    (w.setMtd n p).mtd n = some p := by simp [World.setMtd]
@[simp] theorem setMtd_log (w : World) (n : List Nat) (p : MtdPartition) :
    (w.setMtd n p).log = w.log := rfl
@[simp] theorem setBlk_blk_self (w : World) (n : List Nat) (d : BlockDevice) :
    (w.setBlk n d).blk n = some d := by simp [World.setBlk]
@[simp] theorem setBlk_log (w : World) (n : List Nat) (d : BlockDevice) :
    (w.setBlk n d).log = w.log := rfl

theorem copy_in_length (data : List Nat) (off : Nat) (src : List Nat)
    (h : off + src.length ≤ data.length) : (copy_in data off src).length = data.length := by
  simp [copy_in]; omega

theorem copy_in_eq (data : List Nat) (off : Nat) (src : List Nat)
    (h : off + src.length ≤ data.length) :
    copy_in data off src = data.take off ++ src ++ data.drop (off + src.length) := by
  have hs : src.take (data.length - off) = src := List.take_of_length_le (by omega)
  unfold copy_in
  rw [hs]

theorem copy_in_getElem?_outside (data : List Nat) (off : Nat) (src : List Nat) (i : Nat)
    (h : off + src.length ≤ data.length) (hi : i < off ∨ off + src.length ≤ i) :
    (copy_in data off src)[i]? = data[i]? := by
  rw [copy_in_eq data off src h]
  rcases hi with hi | hi
  · rw [List.append_assoc, List.getElem?_append_left (by simp; omega)]
    simp [List.getElem?_take, hi]
  · rw [List.getElem?_append_right (by simp; omega)]
    simp
    congr 1
    omega

theorem toBytes_length (L : Layout) (m : bootloader_message) (h : m.WellSized L) :
    m.toBytes.length = L.sizeof := by
  obtain ⟨h1, h2, h3, h4⟩ := h
  simp [bootloader_message.toBytes, Layout.sizeof, h1, h2, h3, h4]
  omega

theorem ofBytes_toBytes (L : Layout) (m : bootloader_message) (h : m.WellSized L) :
    bootloader_message.ofBytes L m.toBytes = m := by
  obtain ⟨h1, h2, h3, h4⟩ := h
  cases m with
  | mk c s r t =>
    simp only at h1 h2 h3 h4
    have e : c ++ (s ++ (r ++ t)) = (c ++ s ++ r) ++ t := by simp
    simp [bootloader_message.ofBytes, bootloader_message.toBytes, ← h1, ← h2, ← h3, ← h4]
    rw [e, List.drop_left' (by simp [Nat.add_assoc])]
    simp

theorem ofBytes_wellSized (L : Layout) (bs : List Nat) (h : bs.length = L.sizeof) :
    (bootloader_message.ofBytes L bs).WellSized L := by
  simp [bootloader_message.ofBytes, bootloader_message.WellSized, Layout.sizeof] at *
  omega

theorem zeroed_wellSized (L : Layout) : (bootloader_message.zeroed L).WellSized L := by
  simp [bootloader_message.zeroed, bootloader_message.WellSized]

theorem set_mtd_success (L : Layout) (msg : bootloader_message) (v : Volume) (w w' : World)
    (h : set_bootloader_message_mtd L msg v w = (0, w')) :
    ∃ part ws, w.mtd v.blk_device = some part ∧ part.write_size = some ws ∧
      part.read_opens = true ∧ ws * MISC_PAGES ≤ part.data.length ∧
      w'.mtd v.blk_device = some
        { part with
          data := (copy_in (part.data.take (ws * MISC_PAGES)) (ws * MISC_COMMAND_PAGE)
            (msg.toBytes.take L.sizeof) ++ part.data.drop (ws * MISC_PAGES)) } ∧
      w'.log = w.log ++ [Event.mtd_scan_partitions,
        Event.mtd_find_partition_by_name v.blk_device, Event.mtd_partition_info v.blk_device,
        Event.mtd_read_partition v.blk_device,
        Event.mtd_read_data v.blk_device (ws * MISC_PAGES), Event.mtd_read_close v.blk_device,
        Event.mtd_write_partition v.blk_device,
        Event.mtd_write_data v.blk_device
          (copy_in (part.data.take (ws * MISC_PAGES)) (ws * MISC_COMMAND_PAGE)
            (msg.toBytes.take L.sizeof)),
        Event.mtd_write_close v.blk_device] := by
  unfold set_bootloader_message_mtd at h
  simp only [emit_mtd] at h
  cases hp : w.mtd v.blk_device with
  | none => simp [hp] at h
  | some part =>
    cases hws : part.write_size with
    | none => simp [hp, hws] at h
    | some ws =>
      simp only [hp, hws] at h
      by_cases hr : part.read_opens = true
      · by_cases hlen : part.data.length < ws * MISC_PAGES
        · simp [hr, hlen] at h
        · by_cases hwo : part.write_opens = true
          · by_cases hwc : part.write_completes = true
            · by_cases hcl : part.close_succeeds = true
              · simp [hr, hlen, hwo, hwc, hcl] at h
                refine ⟨part, ws, rfl, hws, hr, by omega, ?_, ?_⟩
                · rw [← h]; simp [hws, hr, hwo, hwc, hcl]
                · rw [← h]; simp
              · simp [hr, hlen, hwo, hwc, hcl] at h
            · simp [hr, hlen, hwo, hwc] at h
          · simp [hr, hlen, hwo] at h
      · simp [hr] at h

theorem copy_in_getElem?_inside (data : List Nat) (off : Nat) (src : List Nat) (j : Nat)
    (h : off ≤ data.length) (hj : j < src.length) (hj2 : off + j < data.length) :
    (copy_in data off src)[off + j]? = src[j]? := by
  unfold copy_in
  have h1 : (data.take off).length = off := by simp; omega
  rw [List.append_assoc, List.getElem?_append_right (by omega), h1, Nat.add_sub_cancel_left,
    List.getElem?_append_left (by simp; omega), List.getElem?_take]
  simp; omega

theorem copy_out_length (data : List Nat) (off n : Nat) : (copy_out data off n).length = n := by
  simp [copy_out]

/-- The raw-flash `set` on a partition where every step succeeds. -/
theorem set_mtd_eval (L : Layout) (msg : bootloader_message) (v : Volume) (w : World)
    (part : MtdPartition) (ws : Nat)
    (hp : w.mtd v.blk_device = some part) (hws : part.write_size = some ws)
    (hr : part.read_opens = true) (hlen : ws * MISC_PAGES ≤ part.data.length)
    (hwo : part.write_opens = true) (hwc : part.write_completes = true)
    (hcl : part.close_succeeds = true) :
    (set_bootloader_message_mtd L msg v w).1 = 0 ∧
      (set_bootloader_message_mtd L msg v w).2.mtd v.blk_device = some
        { part with
          data := (copy_in (part.data.take (ws * MISC_PAGES)) (ws * MISC_COMMAND_PAGE)
            (msg.toBytes.take L.sizeof) ++ part.data.drop (ws * MISC_PAGES)) } := by
  have hlen2 : ¬ part.data.length < ws * MISC_PAGES := by omega
  simp [set_bootloader_message_mtd, hp, hws, hr, hlen2, hwo, hwc, hcl]

@[simp] theorem wait_loop_blk (fn : List Nat) (n : Nat) (w : World) :
    (wait_loop fn n w).blk = w.blk := by
  induction n generalizing w with
  | zero => rfl
  | succ n ih =>
    simp only [wait_loop, emit_blk]
    cases w.blk fn <;> simp [ih]

@[simp] theorem wait_for_device_blk (fn : List Nat) (w : World) :
    (wait_for_device fn w).blk = w.blk := wait_loop_blk fn 10 w

theorem read_misc_eval (v : Volume) (offset size : Nat) (out : List Nat) (w : World)
    (dev : BlockDevice) (hd : w.blk v.blk_device = some dev)
    (hlen : offset + size ≤ dev.content.length) :
    ∃ w', read_misc_partition v offset size out w =
      (true, (dev.content.drop offset).take size, w') := by
  have h1 : ¬ dev.content.length < offset := by omega
  have h2 : ¬ dev.content.length < offset + size := by omega
  simp [read_misc_partition, hd, h1, h2]

theorem zeroed_toBytes (L : Layout) :
    (bootloader_message.zeroed L).toBytes = List.replicate L.sizeof 0 := by
  simp [bootloader_message.zeroed, bootloader_message.toBytes, Layout.sizeof, Nat.add_assoc]

theorem pair_of_fst {α β : Type} (p : α × β) (a : α) (h : p.1 = a) : p = (a, p.2) := by
  cases p
  simp only at h
  rw [h]

theorem erased_partition_length (ws : Nat) :
    (erased_partition ws).data.length = ws * MISC_PAGES := by
  simp [erased_partition]

theorem erased_partition_getElem? (ws i : Nat) (h : i < ws * MISC_PAGES) :
    (erased_partition ws).data[i]? = some 255 := by
  simp [erased_partition, List.getElem?_replicate, h]

theorem erased_flash_set_eval (L : Layout) (msg : bootloader_message) (ws : Nat) :
    (set_bootloader_message_mtd L msg misc_mtd (erased_flash ws)).1 = 0 ∧
      (set_bootloader_message_mtd L msg misc_mtd (erased_flash ws)).2.mtd misc_mtd.blk_device =
        some { erased_partition ws with
          data := (copy_in ((erased_partition ws).data.take (ws * MISC_PAGES))
            (ws * MISC_COMMAND_PAGE) (msg.toBytes.take L.sizeof) ++
              (erased_partition ws).data.drop (ws * MISC_PAGES)) } :=
  set_mtd_eval L msg misc_mtd (erased_flash ws) (erased_partition ws) ws rfl rfl rfl
    (by rw [erased_partition_length]) rfl rfl rfl

/-- Writing the zeroed record to an erased partition stores 0 at every offset of the record
that lies inside the three-page buffer. -/
theorem erased_flash_set_zeroed_byte (L : Layout) (ws j : Nat) (hj : j < L.sizeof)
    (hin : ws + L.sizeof ≤ ws * MISC_PAGES) :
    ((set_bootloader_message_mtd L (bootloader_message.zeroed L) misc_mtd
      (erased_flash ws)).2.mtd (bytes "misc")).map (fun p => p.data[ws + j]?) =
        some (some 0) := by
  have e : (bytes "misc") = misc_mtd.blk_device := rfl
  rw [e, (erased_flash_set_eval L _ ws).2]
  simp only [Option.map_some', Option.some.injEq]
  have hD : ((erased_partition ws).data.take (ws * MISC_PAGES)).length = ws * MISC_PAGES := by
    rw [List.length_take, erased_partition_length]; simp
  have hsrc : ((bootloader_message.zeroed L).toBytes.take L.sizeof)
      = List.replicate L.sizeof 0 := by
    rw [zeroed_toBytes]; simp
  rw [hsrc]
  have hci : ws + j < (copy_in ((erased_partition ws).data.take (ws * MISC_PAGES))
      (ws * MISC_COMMAND_PAGE) (List.replicate L.sizeof 0)).length := by
    rw [copy_in_length _ _ _ (by
      rw [hD, List.length_replicate]; simp only [MISC_COMMAND_PAGE]; omega), hD]
    omega
  rw [List.getElem?_append_left hci]
  have := copy_in_getElem?_inside ((erased_partition ws).data.take (ws * MISC_PAGES))
    (ws * MISC_COMMAND_PAGE) (List.replicate L.sizeof 0) j
    (by rw [hD]; simp only [MISC_COMMAND_PAGE, MISC_PAGES]; omega)
    (by simp [hj]) (by rw [hD]; simp only [MISC_COMMAND_PAGE]; omega)
  simp only [MISC_COMMAND_PAGE, Nat.mul_one] at this ⊢
  rw [this, List.getElem?_replicate]
  simp [hj]

theorem cstr_append_zero (p r : List Nat) (hp : ∀ b ∈ p, b ≠ 0) : cstr (p ++ 0 :: r) = p := by
  unfold cstr
  rw [List.takeWhile_append_of_pos (by simpa using hp)]
  simp

theorem cstr_of_ne_zero (p : List Nat) (hp : ∀ b ∈ p, b ≠ 0) : cstr p = p := by
  unfold cstr
  rw [List.takeWhile_eq_self_iff]
  simpa using hp

theorem read_misc_length (v : Volume) (offset size : Nat) (out : List Nat) (w : World)
    (s : List Nat) (w' : World)
    (h : read_misc_partition v offset size out w = (true, s, w')) : s.length = size := by
  unfold read_misc_partition at h
  simp only [emit_blk, wait_for_device_blk] at h
  cases hd : w.blk v.blk_device with
  | none => simp [hd] at h
  | some dev =>
    simp only [hd] at h
    by_cases h1 : dev.content.length < offset
    · simp [h1] at h
    · by_cases h2 : dev.content.length < offset + size
      · simp [h1, h2] at h
      · simp [h1, h2] at h
        rw [← h.1]
        simp
        omega

theorem get_mtd_wellSized (L : Layout) (out : bootloader_message) (v : Volume) (w : World)
    (h : out.WellSized L) : (get_bootloader_message_mtd L out v w).2.1.WellSized L := by
  unfold get_bootloader_message_mtd
  simp only [emit_mtd]
  split
  · exact h
  · split
    · exact h
    · split
      · exact h
      · split
        · exact h
        · exact ofBytes_wellSized L _ (copy_out_length _ _ _)

theorem get_wellSized (L : Layout) (misc : Volume) (out : bootloader_message) (w : World)
    (h : out.WellSized L) : (get_bootloader_message L misc out w).2.1.WellSized L := by
  unfold get_bootloader_message
  split
  · exact h
  · split
    · exact get_mtd_wellSized L out misc w h
    · split
      · cases hr : read_misc_partition misc L.message_offset L.sizeof [] w with
        | mk ok rest =>
          cases rest with
          | mk s w' =>
            cases ok with
            | false => exact h
            | true => exact ofBytes_wellSized L s (read_misc_length _ _ _ _ _ _ _ hr)
      · exact h

theorem record_read_wellSized (L : Layout) (misc : Volume) (w : World) :
    (record_read L misc w).WellSized L :=
  get_wellSized L misc _ w (zeroed_wellSized L)

theorem tokens_nil (d : List Nat) : tokens d [] = [] := by
  simp [tokens]

theorem tokens_cons_delim (d : List Nat) (x : Nat) (xs : List Nat) (hx : d.contains x = true) :
    tokens d (x :: xs) = tokens d xs := by
  unfold tokens
  rw [List.splitOnP_cons, if_pos hx]
  rfl

theorem tokens_delims_append (d : List Nat) (dl xs : List Nat)
    (h : ∀ b ∈ dl, d.contains b = true) : tokens d (dl ++ xs) = tokens d xs := by
  induction dl with
  | nil => rfl
  | cons x dl ih =>
    rw [List.cons_append, tokens_cons_delim d x _ (h x (List.mem_cons_self _ _))]
    exact ih (fun b hb => h b (List.mem_cons_of_mem _ hb))

theorem tokens_token_end (d : List Nat) (t : List Nat)
    (h : ∀ b ∈ t, d.contains b = false) (hne : t ≠ []) : tokens d t = [t] := by
  have ht : (!t.isEmpty) = true := by
    cases t with
    | nil => exact absurd rfl hne
    | cons x xs => rfl
  unfold tokens
  rw [List.splitOnP_eq_single _ _ (by simpa using h)]
  exact List.filter_cons_of_pos (p := fun t : List Nat => !t.isEmpty) ht

theorem tokens_token_sep (d : List Nat) (t : List Nat) (sep : Nat) (rest : List Nat)
    (h : ∀ b ∈ t, d.contains b = false) (hne : t ≠ []) (hsep : d.contains sep = true) :
    tokens d (t ++ sep :: rest) = t :: tokens d rest := by
  have ht : (!t.isEmpty) = true := by
    cases t with
    | nil => exact absurd rfl hne
    | cons x xs => rfl
  unfold tokens
  rw [List.splitOnP_first _ _ (by simpa using h) sep hsep]
  exact List.filter_cons_of_pos (p := fun t : List Nat => !t.isEmpty) ht

theorem drop_length_takeWhile (p : Nat → Bool) (l : List Nat) :
    l.drop (l.takeWhile p).length = l.dropWhile p := by
  induction l with
  | nil => rfl
  | cons x xs ih =>
    by_cases hx : p x
    · simp [List.takeWhile_cons, List.dropWhile_cons, hx, ih]
    · simp [List.takeWhile_cons, List.dropWhile_cons, hx]

theorem dropWhile_head_false (p : Nat → Bool) (l : List Nat) (x : Nat) (r : List Nat)
    (h : l.dropWhile p = x :: r) : p x = false := by
  induction l with
  | nil => simp at h
  | cons y ys ih =>
    by_cases hy : p y
    · rw [List.dropWhile_cons, if_pos hy] at h
      exact ih h
    · rw [List.dropWhile_cons, if_neg hy] at h
      cases h
      simpa using hy

theorem getD_eq_headD_drop (l : List Nat) (n : Nat) : l.getD n 0 = (l.drop n).headD 0 := by
  induction l generalizing n with
  | nil => simp
  | cons x xs ih =>
    cases n with
    | zero => simp
    | succ n => simp

/-- What `strtok` returns and leaves behind, in terms of the tokens of the string at the saved
position. -/
theorem strtok_tokens (buf : List Nat) (pos : Nat) (d : List Nat)
    (hd0 : d.contains 0 = false) :
    (strtok buf pos d).1 = (tokens d (cstr (buf.drop pos))).head? ∧
      tokens d (cstr ((strtok buf pos d).2.1.drop (strtok buf pos d).2.2)) =
        (tokens d (cstr (buf.drop pos))).tail := by
  -- the pieces of the string at `pos`
  have hdl : ∀ b ∈ (buf.drop pos).takeWhile (fun b => d.contains b), d.contains b = true :=
    fun b hb => List.mem_takeWhile_imp hb
  have hl1 : buf.drop (pos + ((buf.drop pos).takeWhile (fun b => d.contains b)).length) =
      (buf.drop pos).dropWhile (fun b => d.contains b) := by
    rw [← List.drop_drop, drop_length_takeWhile]
  have hsplit : cstr (buf.drop pos) = (buf.drop pos).takeWhile (fun b => d.contains b) ++
      cstr ((buf.drop pos).dropWhile (fun b => d.contains b)) := by
    conv_lhs => rw [← List.takeWhile_append_dropWhile (fun b => d.contains b) (buf.drop pos)]
    unfold cstr
    rw [List.takeWhile_append_of_pos]
    intro b hb
    have := hdl b hb
    by_cases hb0 : b = 0
    · subst hb0; rw [hd0] at this; cases this
    · simpa using hb0
  have htoks : tokens d (cstr (buf.drop pos)) =
      tokens d (cstr ((buf.drop pos).dropWhile (fun b => d.contains b))) := by
    rw [hsplit, tokens_delims_append d _ _ hdl]
  generalize hL1 : (buf.drop pos).dropWhile (fun b => d.contains b) = l1 at hl1 hsplit htoks
  have htk : ∀ b ∈ l1.takeWhile (fun b => b != 0 && !d.contains b),
      b ≠ 0 ∧ d.contains b = false := by
    intro b hb
    have := List.mem_takeWhile_imp hb
    simpa using this
  have hrest : buf.drop (pos + ((buf.drop pos).takeWhile (fun b => d.contains b)).length +
      (l1.takeWhile (fun b => b != 0 && !d.contains b)).length) =
      l1.dropWhile (fun b => b != 0 && !d.contains b) := by
    rw [← List.drop_drop, hl1, drop_length_takeWhile]
  have hc1 : cstr l1 = l1.takeWhile (fun b => b != 0 && !d.contains b) ++
      cstr (l1.dropWhile (fun b => b != 0 && !d.contains b)) := by
    conv_lhs =>
      rw [← List.takeWhile_append_dropWhile (fun b => b != 0 && !d.contains b) l1]
    unfold cstr
    rw [List.takeWhile_append_of_pos]
    intro b hb
    simpa using (htk b hb).1
  rw [htoks, hc1]
  unfold strtok
  simp only [hl1]
  generalize hTK : l1.takeWhile (fun b => b != 0 && !d.contains b) = tk at htk hrest hc1
  generalize hR : l1.dropWhile (fun b => b != 0 && !d.contains b) = rest at hrest hc1
  have hcases : rest = [] ∨ (∃ r, rest = 0 :: r) ∨
      (∃ x r, rest = x :: r ∧ x ≠ 0 ∧ d.contains x = true) := by
    cases rest with
    | nil => exact Or.inl rfl
    | cons x r =>
      have hx := dropWhile_head_false _ _ _ _ hR
      by_cases hx0 : x = 0
      · exact Or.inr (Or.inl ⟨r, by rw [hx0]⟩)
      · refine Or.inr (Or.inr ⟨x, r, rfl, hx0, ?_⟩)
        simpa [hx0] using hx
  by_cases hempty : tk = []
  · -- no token: the string ends here
    simp only [hempty, if_true, List.nil_append, List.length_nil, Nat.add_zero] at hrest ⊢
    have hend : tokens d (cstr rest) = [] := by
      rcases hcases with h | ⟨r, h⟩ | ⟨x, r, h, -, hx⟩
      · rw [h]; simp [cstr, tokens_nil]
      · rw [h]; simp [cstr, tokens_nil]
      · exfalso
        have e1 : l1 = rest := by
          rw [← List.takeWhile_append_dropWhile (fun b => b != 0 && !d.contains b) l1,
            hTK, hR, hempty, List.nil_append]
        rw [h] at e1
        rw [e1] at hL1
        have := dropWhile_head_false _ _ _ _ hL1
        rw [hx] at this
        cases this
    rw [hl1, hc1, hempty, List.nil_append, hend]
    exact ⟨rfl, rfl⟩
  · simp only [hempty, if_false]
    have htkd : ∀ b ∈ tk, d.contains b = false := fun b hb => (htk b hb).2
    rw [getD_eq_headD_drop, hrest]
    rcases hcases with h | ⟨r, h⟩ | ⟨x, r, h, hx0, hx⟩
    · subst h
      simp only [List.headD_nil, if_true]
      rw [hrest]
      simp [cstr, tokens_nil, tokens_token_end d tk htkd hempty]
    · subst h
      simp only [List.headD_cons, if_true]
      rw [hrest]
      simp [cstr, tokens_nil, tokens_token_end d tk htkd hempty]
    · subst h
      simp only [List.headD_cons, hx0, if_false]
      have hc : cstr (x :: r) = x :: cstr r := by
        simp [cstr, List.takeWhile_cons, hx0]
      rw [hc, tokens_token_sep d tk x _ htkd hempty hx]
      refine ⟨rfl, ?_⟩
      simp only [List.tail_cons]
      rw [List.drop_set_of_lt _ _ (by omega), ← List.drop_drop, hrest]
      simp

theorem newline_has_no_nul : (bytes "\n").contains 0 = false := by decide

theorem boot_loop_tokens (n : Nat) (buf : List Nat) (pos : Nat) (argv : List Arg) :
    (boot_loop n buf pos argv).2 =
      argv ++ ((tokens (bytes "\n") (cstr (buf.drop pos))).take n).map some := by
  induction n generalizing buf pos argv with
  | zero => simp [boot_loop]
  | succ n ih =>
    obtain ⟨h1, h2⟩ := strtok_tokens buf pos (bytes "\n") newline_has_no_nul
    unfold boot_loop
    cases hs : strtok buf pos (bytes "\n") with
    | mk tok rest =>
      cases rest with
      | mk buf' pos' =>
        rw [hs] at h1 h2
        simp only at h1 h2
        cases htoks : tokens (bytes "\n") (cstr (buf.drop pos)) with
        | nil =>
          rw [htoks] at h1
          simp only [List.head?_nil] at h1
          subst h1
          simp
        | cons t ts =>
          rw [htoks] at h1 h2
          simp only [List.head?_cons, List.tail_cons] at h1 h2
          subst h1
          simp only
          rw [ih, h2]
          simp

/-- The first block of `get_args` in terms of the tokens of the `recovery` string. -/
theorem args_from_boot_message_tokens (L : Layout) (boot : bootloader_message) (argc : Int)
    (argv : List Arg) (h : argc ≤ 1) :
    ((tokens (bytes "\n") (cstr (boot.recovery.set (L.recovery - 1) 0))).head? =
        some (bytes "recovery") →
      (args_from_boot_message L boot argc argv).2.1 =
          ((tokens (bytes "\n") (cstr (boot.recovery.set (L.recovery - 1) 0))).take
            MAX_ARGS).map some ∧
        (args_from_boot_message L boot argc argv).1 =
          (((tokens (bytes "\n") (cstr (boot.recovery.set (L.recovery - 1) 0))).take
            MAX_ARGS).length : Int)) ∧
    ((tokens (bytes "\n") (cstr (boot.recovery.set (L.recovery - 1) 0))).head? ≠
        some (bytes "recovery") →
      (args_from_boot_message L boot argc argv).2.1 = argv ∧
        (args_from_boot_message L boot argc argv).1 = argc) := by
  obtain ⟨h1, h2⟩ := strtok_tokens (boot.recovery.set (L.recovery - 1) 0) 0 (bytes "\n")
    newline_has_no_nul
  simp only [List.drop_zero] at h1 h2
  unfold args_from_boot_message
  simp only [h, if_true]
  cases hs : strtok (boot.recovery.set (L.recovery - 1) 0) 0 (bytes "\n") with
  | mk tok rest =>
    cases rest with
    | mk buf' pos' =>
      rw [hs] at h1 h2
      simp only at h1 h2
      cases htoks : tokens (bytes "\n") (cstr (boot.recovery.set (L.recovery - 1) 0)) with
      | nil =>
        rw [htoks] at h1
        simp only [List.head?_nil] at h1
        subst h1
        simp
      | cons t ts =>
        rw [htoks] at h1 h2
        simp only [List.head?_cons, List.tail_cons] at h1 h2
        subst h1
        simp only [List.head?_cons, Option.some.injEq]
        by_cases ht : t = bytes "recovery"
        · simp only [ht, if_true, true_implies, not_true_eq_false, false_implies, and_true]
          have hb := boot_loop_tokens (MAX_ARGS - 1) buf' pos' [some (bytes "recovery")]
          cases hbl : boot_loop (MAX_ARGS - 1) buf' pos' [some (bytes "recovery")] with
          | mk b a =>
            rw [hbl] at hb
            simp only at hb
            rw [h2] at hb
            simp only
            have e : (bytes "recovery" :: ts).take MAX_ARGS =
                bytes "recovery" :: ts.take (MAX_ARGS - 1) := rfl
            rw [e, hb]
            simp
        · simp [ht]

/-! ## Resolver: arguments from the boot message -/

theorem get_args_argv (L : Layout) (misc : Volume) (w : World) (file : Option (List Nat))
    (argc : Int) (argv : List Arg) :
    (get_args L misc w file argc argv).argv = (args_from_command_file file
      (args_from_boot_message L (record_read L misc w) argc argv).1
      (args_from_boot_message L (record_read L misc w) argc argv).2.1).2.1 := rfl

theorem get_args_argc (L : Layout) (misc : Volume) (w : World) (file : Option (List Nat))
    (argc : Int) (argv : List Arg) :
    (get_args L misc w file argc argv).argc = (args_from_command_file file
      (args_from_boot_message L (record_read L misc w) argc argv).1
      (args_from_boot_message L (record_read L misc w) argc argv).2.1).1 := rfl

theorem get_args_fopen_called (L : Layout) (misc : Volume) (w : World)
    (file : Option (List Nat)) (argc : Int) (argv : List Arg) :
    (get_args L misc w file argc argv).fopen_called = (args_from_command_file file
      (args_from_boot_message L (record_read L misc w) argc argv).1
      (args_from_boot_message L (record_read L misc w) argc argv).2.1).2.2 := rfl

theorem args_from_command_file_skip (file : Option (List Nat)) (argc : Int) (argv : List Arg)
    (h : 1 < argc) : args_from_command_file file argc argv = (argc, argv, false) := by
  have h1 : ¬ argc ≤ 1 := by omega
  simp [args_from_command_file, h1]

/-- What `get_args` resolves when the record holds the sentinel and at least one more token. -/
theorem get_args_of_boot_tokens (L : Layout) (misc : Volume) (w : World)
    (file : Option (List Nat)) (argc : Int) (argv : List Arg) (t : List Nat)
    (ts : List (List Nat)) (h : argc ≤ 1)
    (htok : tokens (bytes "\n") (cstr ((record_read L misc w).recovery.set (L.recovery - 1) 0)) =
      bytes "recovery" :: t :: ts) :
    (get_args L misc w file argc argv).argv =
        some (bytes "recovery") :: ((t :: ts).take (MAX_ARGS - 1)).map some ∧
      (get_args L misc w file argc argv).argc =
        (((get_args L misc w file argc argv).argv.length : Nat) : Int) ∧
      (get_args L misc w file argc argv).fopen_called = false := by
  have hspec := (args_from_boot_message_tokens L (record_read L misc w) argc argv h).1
    (by rw [htok]; rfl)
  rw [htok] at hspec
  have e : (bytes "recovery" :: t :: ts).take MAX_ARGS =
      bytes "recovery" :: t :: ts.take (MAX_ARGS - 2) := rfl
  rw [e] at hspec
  obtain ⟨hv, hc⟩ := hspec
  have hbig : 1 < (args_from_boot_message L (record_read L misc w) argc argv).1 := by
    rw [hc]
    simp only [List.length_cons]
    omega
  rw [get_args_argv, get_args_argc, get_args_fopen_called,
    args_from_command_file_skip _ _ _ hbig]
  refine ⟨?_, ?_, rfl⟩
  · rw [hv]; rfl
  · simp only
    rw [hc, hv]
    simp

theorem set_zero_in_padding (text : List Nat) (k i : Nat) (h : text.length ≤ i) :
    (text ++ List.replicate k 0).set i 0 = text ++ List.replicate k 0 := by
  apply List.ext_getElem?
  intro j
  rw [List.getElem?_set]
  by_cases hij : i = j
  · subst hij
    simp only [if_true]
    split
    · rename_i hlt
      rw [List.getElem?_append_right h, List.getElem?_replicate]
      simp only [List.length_append, List.length_replicate] at hlt
      rw [if_pos (by omega)]
    · rename_i hge
      rw [List.getElem?_eq_none (by omega)]
  · simp [hij]

theorem cstr_padded (text : List Nat) (k : Nat) (h : ∀ b ∈ text, b ≠ 0) :
    cstr (text ++ List.replicate k 0) = text := by
  cases k with
  | zero => simpa using cstr_of_ne_zero text h
  | succ k => exact cstr_append_zero text _ h

theorem record_with_recovery_wellSized (L : Layout) (text : List Nat)
    (h : text.length ≤ L.recovery) : (record_with_recovery L text).WellSized L := by
  simp [record_with_recovery, bootloader_message.zeroed, bootloader_message.WellSized]
  omega

theorem record_with_recovery_string (L : Layout) (text : List Nat)
    (h0 : ∀ b ∈ text, b ≠ 0) (h : text.length < L.recovery) :
    cstr ((record_with_recovery L text).recovery.set (L.recovery - 1) 0) = text := by
  simp only [record_with_recovery]
  rw [set_zero_in_padding _ _ _ (by omega), cstr_padded _ _ h0]

theorem record_read_emmc_holding (L : Layout) (msg : bootloader_message)
    (h : msg.WellSized L) : record_read L misc_emmc (emmc_holding L msg) = msg := by
  have hl := toBytes_length L msg h
  obtain ⟨w', hr⟩ := read_misc_eval misc_emmc L.message_offset L.sizeof []
    (emmc_holding L msg) ⟨List.replicate L.message_offset 0 ++ msg.toBytes, true⟩
    (by simp [emmc_holding]) (by simp [hl])
  have h1 : misc_emmc.fs_type = bytes "emmc" := rfl
  have h2 : bytes "emmc" ≠ [] := by decide
  have h3 : bytes "emmc" ≠ bytes "mtd" := by decide
  simp only [record_read, get_bootloader_message, h1, h2, h3, if_false, if_true, hr]
  rw [List.drop_left' (by simp), ← hl, List.take_length]
  exact ofBytes_toBytes L msg h

theorem sample_boot_tokens :
    tokens (bytes "\n") (cstr ((record_read spec_layout misc_emmc (emmc_holding spec_layout
      (record_with_recovery spec_layout (bytes "recovery\n--wipe_data\n")))).recovery.set
        (spec_layout.recovery - 1) 0)) = bytes "recovery" :: bytes "--wipe_data" :: [] := by
  rw [record_read_emmc_holding _ _ (record_with_recovery_wellSized _ _ (by decide)),
    record_with_recovery_string _ _ (by decide) (by decide)]
  decide

theorem read_line_length_le (n : Nat) (fp : List Nat) : (read_line n fp).length ≤ n := by
  induction n generalizing fp with
  | zero => simp [read_line]
  | succ n ih =>
    cases fp with
    | nil => simp [read_line]
    | cons b bs =>
      simp only [read_line]
      split
      · simp
      · simp only [List.length_cons]
        have := ih bs
        omega

theorem read_line_pos (n : Nat) (b : Nat) (bs : List Nat) :
    0 < (read_line (n + 1) (b :: bs)).length := by
  simp only [read_line]
  split <;> simp

theorem fgets_shrinks (fp buf rest : List Nat)
    (h : fgets MAX_ARG_LENGTH fp = some (buf, rest)) : rest.length < fp.length := by
  cases fp with
  | nil => simp [fgets] at h
  | cons b bs =>
    simp only [fgets, Option.some.injEq, Prod.mk.injEq] at h
    obtain ⟨h1, h2⟩ := h
    have hp : 0 < buf.length := by
      rw [← h1]
      exact read_line_pos 4094 b bs
    rw [← h2, h1, List.length_drop]
    simp only [List.length_cons]
    omega

/-- Fuel above the number of unread bytes is never used up. -/
theorem file_loop_fuel (f1 f2 : Nat) (fp : List Nat) (argv : List Arg)
    (h1 : fp.length < f1) (h2 : fp.length < f2) :
    file_loop f1 fp argv = file_loop f2 fp argv := by
  induction f1 generalizing f2 fp argv with
  | zero => omega
  | succ f1 ih =>
    cases f2 with
    | zero => omega
    | succ f2 =>
      unfold file_loop
      split
      · rfl
      · cases hg : fgets MAX_ARG_LENGTH fp with
        | none => rfl
        | some p =>
          obtain ⟨buf, rest⟩ := p
          have hs := fgets_shrinks fp buf rest hg
          simp only
          split
          · exact ih _ _ _ (by omega) (by omega)
          · exact ih _ _ _ (by omega) (by omega)

theorem file_args_stop (fp : List Nat) (argv : List Arg) (h : MAX_ARGS ≤ argv.length) :
    file_args fp argv = argv := by
  simp [file_args, file_loop, h]

theorem file_args_nil (argv : List Arg) : file_args [] argv = argv := by
  simp [file_args, file_loop, fgets]

theorem cstr_append_nul (c : List Nat) : cstr (c ++ [0]) = cstr c := by
  induction c with
  | nil => simp [cstr]
  | cons x xs ih =>
    unfold cstr at ih ⊢
    by_cases hx : x = 0
    · simp [List.takeWhile_cons, hx]
    · simp [List.takeWhile_cons, hx, ih]

theorem crlf_has_no_nul : (bytes "\r\n").contains 0 = false := by decide

/-- One round of the command-file loop on a stream that starts with the `fgets` buffer `c`. -/
theorem file_args_chunk (c R : List Nat) (argv : List Arg) (hlen : argv.length < MAX_ARGS)
    (hc : c ≠ []) (hread : read_line (MAX_ARG_LENGTH - 1) (c ++ R) = c) :
    file_args (c ++ R) argv = file_args R (match (tokens (bytes "\r\n") (cstr c)).head? with
      | some t => argv ++ [some t]
      | none => argv) := by
  have hfg : fgets MAX_ARG_LENGTH (c ++ R) = some (c, R) := by
    cases hcr : c ++ R with
    | nil => simp at hcr; exact absurd hcr.1 hc
    | cons b bs =>
      simp only [fgets]
      rw [← hcr, hread]
      simp
  have htok := (strtok_tokens (c ++ [0]) 0 (bytes "\r\n") crlf_has_no_nul).1
  rw [List.drop_zero, cstr_append_nul] at htok
  have hnot : ¬ MAX_ARGS ≤ argv.length := by omega
  have hR : R.length < (c ++ R).length := by
    have : 0 < c.length := List.length_pos.mpr hc
    simp only [List.length_append]
    omega
  unfold file_args
  rw [show (c ++ R).length + 1 = (c ++ R).length.succ from rfl]
  unfold file_loop
  simp only [hnot, if_false, hfg]
  cases hs : strtok (c ++ [0]) 0 (bytes "\r\n") with
  | mk tok rest =>
    rw [hs] at htok
    simp only at htok
    rw [← htok]
    cases tok with
    | none => exact file_loop_fuel (c ++ R).length (R.length + 1) R _ hR (by omega)
    | some t => exact file_loop_fuel (c ++ R).length (R.length + 1) R _ hR (by omega)

theorem read_line_newline (n : Nat) (l R : List Nat) (h10 : 10 ∉ l) (hlen : l.length < n) :
    read_line n (l ++ 10 :: R) = l ++ [10] := by
  induction l generalizing n with
  | nil =>
    cases n with
    | zero => omega
    | succ n => simp [read_line]
  | cons x xs ih =>
    cases n with
    | zero => omega
    | succ n =>
      have hx : x ≠ 10 := fun e => h10 (e ▸ List.mem_cons_self _ _)
      have hxs : 10 ∉ xs := fun hm => h10 (List.mem_cons_of_mem _ hm)
      simp only [List.cons_append, read_line, hx, if_false]
      exact congrArg (List.cons x) (ih n hxs (by simpa using hlen))

theorem read_line_full (n : Nat) (c R : List Nat) (h10 : 10 ∉ c) (hlen : c.length = n) :
    read_line n (c ++ R) = c := by
  induction c generalizing n with
  | nil =>
    subst hlen
    simp [read_line]
  | cons x xs ih =>
    cases n with
    | zero => simp at hlen
    | succ n =>
      have hx : x ≠ 10 := fun e => h10 (e ▸ List.mem_cons_self _ _)
      have hxs : 10 ∉ xs := fun hm => h10 (List.mem_cons_of_mem _ hm)
      simp only [List.cons_append, read_line, hx, if_false]
      exact congrArg (List.cons x) (ih n hxs (by simpa using hlen))

theorem read_line_all (n : Nat) (c : List Nat) (h10 : 10 ∉ c) (hlen : c.length ≤ n) :
    read_line n c = c := by
  induction c generalizing n with
  | nil => cases n <;> rfl
  | cons x xs ih =>
    cases n with
    | zero => simp at hlen
    | succ n =>
      have hx : x ≠ 10 := fun e => h10 (e ▸ List.mem_cons_self _ _)
      have hxs : 10 ∉ xs := fun hm => h10 (List.mem_cons_of_mem _ hm)
      simp only [read_line, hx, if_false]
      exact congrArg (List.cons x) (ih n hxs (by simpa using hlen))

/-- The tokens of an `fgets` buffer made of a plain line and a piece of its terminator. -/
theorem tokens_line_chunk (l t : List Nat) (h0 : 0 ∉ l) (h10 : 10 ∉ l) (h13 : 13 ∉ l)
    (ht : ∀ b ∈ t, b = 13 ∨ b = 10) :
    tokens (bytes "\r\n") (cstr (l ++ t)) = if l = [] then [] else [l] := by
  have hd : ∀ b ∈ t, (bytes "\r\n").contains b = true := by
    intro b hb
    rcases ht b hb with e | e <;> subst e <;> decide
  have hc : cstr (l ++ t) = l ++ t := by
    apply cstr_of_ne_zero
    intro b hb
    rcases List.mem_append.mp hb with hb | hb
    · exact fun e => h0 (e ▸ hb)
    · rcases ht b hb with e | e <;> omega
  have hfree : ∀ b ∈ l, (bytes "\r\n").contains b = false := by
    intro b hb
    have e1 : b ≠ 10 := fun e => h10 (e ▸ hb)
    have e2 : b ≠ 13 := fun e => h13 (e ▸ hb)
    simp [bytes, e1, e2]
  have hdel : tokens (bytes "\r\n") t = [] := by
    have := tokens_delims_append (bytes "\r\n") t [] hd
    rw [List.append_nil] at this
    rw [this, tokens_nil]
  rw [hc]
  by_cases hl : l = []
  · rw [if_pos hl, hl, List.nil_append, hdel]
  · rw [if_neg hl]
    cases t with
    | nil => rw [List.append_nil, tokens_token_end _ l hfree hl]
    | cons x t' =>
      have hdel' : tokens (bytes "\r\n") t' = [] := by
        have := tokens_delims_append (bytes "\r\n") t' []
          (fun b hb => hd b (List.mem_cons_of_mem _ hb))
        rw [List.append_nil] at this
        rw [this, tokens_nil]
      rw [tokens_token_sep _ l x t' hfree hl (hd x (List.mem_cons_self _ _)), hdel']

/-- A round that reads only (the rest of) a line terminator adopts nothing. -/
theorem file_args_terminator (crlf : Bool) (R : List Nat) (argv : List Arg) :
    file_args (line_terminator crlf ++ R) argv = file_args R argv := by
  by_cases hlen : argv.length < MAX_ARGS
  · have hread : read_line (MAX_ARG_LENGTH - 1) (line_terminator crlf ++ R) =
        line_terminator crlf := by
      cases crlf with
      | false => exact read_line_newline _ [] R (by simp) (by decide)
      | true => exact read_line_newline _ [13] R (by simp) (by decide)
    have hne : line_terminator crlf ≠ [] := by cases crlf <;> decide
    rw [file_args_chunk _ R argv hlen hne hread]
    have : (tokens (bytes "\r\n") (cstr (line_terminator crlf))).head? = none := by
      cases crlf <;> decide
    rw [this]
  · rw [file_args_stop _ _ (by omega), file_args_stop _ _ (by omega)]

/-- A round that starts on a non-empty plain line adopts exactly that line. -/
theorem file_args_line (l : List Nat) (crlf : Bool) (R : List Nat) (argv : List Arg)
    (hp : PlainLine l) (hl : l ≠ []) (hlen : argv.length < MAX_ARGS) :
    file_args (l ++ line_terminator crlf ++ R) argv = file_args R (argv ++ [some l]) := by
  obtain ⟨hmax, h0, h10, h13⟩ := hp
  have hM : MAX_ARG_LENGTH - 1 = 4095 := rfl
  rw [hM] at hmax
  -- the first buffer is `l` and the piece `t` of the terminator that still fits
  have key : ∀ t rem : List Nat, (∀ b ∈ t, b = 13 ∨ b = 10) →
      read_line (MAX_ARG_LENGTH - 1) ((l ++ t) ++ (rem ++ R)) = l ++ t →
      file_args (rem ++ R) (argv ++ [some l]) = file_args R (argv ++ [some l]) →
      file_args ((l ++ t) ++ (rem ++ R)) argv = file_args R (argv ++ [some l]) := by
    intro t rem ht hread hrest
    rw [file_args_chunk (l ++ t) (rem ++ R) argv hlen (by simp [hl]) hread,
      tokens_line_chunk l t h0 h10 h13 ht, if_neg hl]
    exact hrest
  cases crlf with
  | false =>
    by_cases hshort : l.length < 4095
    · have := key [10] [] (by simp)
        (by
          rw [List.nil_append, List.append_assoc]
          exact (read_line_newline _ l R h10 (by rw [hM]; exact hshort)).trans (by simp))
        (by rw [List.nil_append])
      simpa [line_terminator, bytes, List.append_assoc] using this
    · have := key [] [10] (by simp)
        (by
          rw [List.append_nil]
          exact read_line_full _ l _ h10 (by rw [hM]; omega))
        (file_args_terminator false R _)
      simpa [line_terminator, bytes, List.append_assoc] using this
  | true =>
    by_cases hshort : l.length < 4094
    · have := key [13, 10] [] (by simp)
        (by
          rw [List.nil_append]
          have e : (l ++ [13, 10]) ++ R = (l ++ [13]) ++ 10 :: R := by simp
          rw [e]
          refine (read_line_newline _ (l ++ [13]) R ?_ ?_).trans (by simp)
          · simp [h10]
          · rw [hM]; simp; omega)
        (by rw [List.nil_append])
      simpa [line_terminator, bytes, List.append_assoc] using this
    · by_cases h94 : l.length = 4094
      · have := key [13] [10] (by simp)
          (by
            refine read_line_full _ (l ++ [13]) _ ?_ ?_
            · simp [h10]
            · rw [hM]; simp; omega)
          (file_args_terminator false R _)
        simpa [line_terminator, bytes, List.append_assoc] using this
      · have := key [] [13, 10] (by simp)
          (by
            rw [List.append_nil]
            exact read_line_full _ l _ h10 (by rw [hM]; omega))
          (file_args_terminator true R _)
        simpa [line_terminator, bytes, List.append_assoc] using this

theorem nonempty_lines_cons (l : Line) (lines : List Line) (last : List Nat) :
    nonempty_lines (l :: lines) last =
      (if l.1 = [] then [] else [l.1]) ++ nonempty_lines lines last := by
  unfold nonempty_lines
  cases hl : l.1 with
  | nil => simp [List.filter_cons, hl]
  | cons x xs => simp [List.filter_cons, hl]

/-- The command-file loop on a file of plain lines adopts the non-empty lines in order. -/
theorem file_args_lines (lines : List Line) (last : List Nat) (argv : List Arg)
    (hplain : ∀ l ∈ lines, PlainLine l.1) (hlast : PlainLine last)
    (hcount : argv.length + (nonempty_lines lines last).length ≤ MAX_ARGS) :
    file_args (file_text lines last) argv = argv ++ (nonempty_lines lines last).map some := by
  induction lines generalizing argv with
  | nil =>
    by_cases hl : last = []
    · subst hl
      simp [file_text, nonempty_lines, file_args_nil]
    · have hne : nonempty_lines [] last = [last] := by
        cases last with
        | nil => exact absurd rfl hl
        | cons x xs => rfl
      rw [hne] at hcount ⊢
      have hlen : argv.length < MAX_ARGS := by
        simp only [List.length_cons, List.length_nil] at hcount
        omega
      obtain ⟨hmax, h0, h10, h13⟩ := hlast
      have hread : read_line (MAX_ARG_LENGTH - 1) (last ++ []) = last := by
        rw [List.append_nil]
        exact read_line_all _ last h10 hmax
      have := file_args_chunk last [] argv hlen hl hread
      rw [List.append_nil] at this
      have htok := tokens_line_chunk last [] h0 h10 h13 (by simp)
      rw [List.append_nil, if_neg hl] at htok
      rw [htok, file_args_nil] at this
      simpa [file_text] using this
  | cons l lines ih =>
    have hl := hplain l (List.mem_cons_self _ _)
    have hrest : ∀ x ∈ lines, PlainLine x.1 := fun x hx => hplain x (List.mem_cons_of_mem _ hx)
    have htext : file_text (l :: lines) last =
        l.1 ++ line_terminator l.2 ++ file_text lines last := by
      simp [file_text, render_line, List.append_assoc]
    rw [htext, nonempty_lines_cons]
    rw [nonempty_lines_cons] at hcount
    by_cases hempty : l.1 = []
    · rw [if_pos hempty] at hcount ⊢
      rw [hempty, List.nil_append, file_args_terminator, List.nil_append]
      exact ih argv hrest (by simpa using hcount)
    · rw [if_neg hempty] at hcount ⊢
      simp only [List.length_append, List.length_cons, List.length_nil] at hcount
      have hlt : argv.length < MAX_ARGS := by omega
      have hnext : (argv ++ [some l.1]).length + (nonempty_lines lines last).length ≤
          MAX_ARGS := by
        simp only [List.length_append, List.length_cons, List.length_nil]
        omega
      rw [file_args_line l.1 l.2 _ argv hl hempty hlt, ih (argv ++ [some l.1]) hrest hnext]
      simp

theorem empty_recovery_has_no_token (L : Layout) (boot : bootloader_message)
    (h : boot.recovery.headD 0 = 0) :
    tokens (bytes "\n") (cstr (boot.recovery.set (L.recovery - 1) 0)) = [] := by
  have : cstr (boot.recovery.set (L.recovery - 1) 0) = [] := by
    cases hr : boot.recovery with
    | nil => simp [cstr]
    | cons x xs =>
      rw [hr] at h
      simp only [List.headD_cons] at h
      subst h
      cases L.recovery - 1 <;> simp [cstr]
  rw [this, tokens_nil]

/-- What `get_args` resolves when the record holds no argument and the command file opens. -/
theorem get_args_of_file (L : Layout) (misc : Volume) (w : World) (fp : List Nat)
    (argc : Int) (argv : List Arg) (h : argc ≤ 1)
    (hrec : (record_read L misc w).recovery.headD 0 = 0) :
    (get_args L misc w (some fp) argc argv).argv = file_args fp [argv.headD none] ∧
      (get_args L misc w (some fp) argc argv).argc =
        (((file_args fp [argv.headD none]).length : Nat) : Int) ∧
      (get_args L misc w (some fp) argc argv).fopen_called = true := by
  have hb := (args_from_boot_message_tokens L (record_read L misc w) argc argv h).2
    (by rw [empty_recovery_has_no_token L _ hrec]; simp)
  rw [get_args_argv, get_args_argc, get_args_fopen_called, hb.1, hb.2]
  simp [args_from_command_file, h, file_args]

theorem record_read_unset (L : Layout) (w : World) :
    record_read L misc_unset w = bootloader_message.zeroed L := by
  simp [record_read, get_bootloader_message, misc_unset]

theorem zeroed_recovery_headD (L : Layout) :
    (bootloader_message.zeroed L).recovery.headD 0 = 0 := by
  simp only [bootloader_message.zeroed]
  cases L.recovery <;> rfl

/-- A line of `n + 1` letters `a` with `n = MAX_ARG_LENGTH - 1` is read as two buffers and
adopted as two arguments. -/
theorem file_args_overlong (n : Nat) (hn : n = MAX_ARG_LENGTH - 1) (a0 : Arg) :
    file_args (List.replicate (n + 1) 97 ++ bytes "\n") [a0] =
      [a0, some (List.replicate n 97), some [97]] := by
  have hpos : 0 < n := by rw [hn]; decide
  have hmem : ∀ b ∈ List.replicate n 97, b = 97 := fun b hb => List.eq_of_mem_replicate hb
  have h0 : 0 ∉ List.replicate n 97 := fun h => by have := hmem 0 h; omega
  have h10 : 10 ∉ List.replicate n 97 := fun h => by have := hmem 10 h; omega
  have h13 : 13 ∉ List.replicate n 97 := fun h => by have := hmem 13 h; omega
  have hne : List.replicate n 97 ≠ [] := by
    intro h
    have := congrArg List.length h
    simp at this
    omega
  have hfile : List.replicate (n + 1) 97 ++ bytes "\n" =
      List.replicate n 97 ++ ([97] ++ line_terminator false ++ []) := by
    rw [List.replicate_succ']
    simp [line_terminator]
  have hread : read_line (MAX_ARG_LENGTH - 1)
      (List.replicate n 97 ++ ([97] ++ line_terminator false ++ [])) = List.replicate n 97 :=
    read_line_full _ _ _ h10 (by rw [List.length_replicate, hn])
  have htok := tokens_line_chunk (List.replicate n 97) [] h0 h10 h13 (by simp)
  rw [List.append_nil, if_neg hne] at htok
  have hM : MAX_ARGS = 100 := rfl
  rw [hfile, file_args_chunk _ _ [a0] (by rw [hM]; simp) hne hread, htok]
  simp only [List.head?_cons]
  rw [file_args_line [97] false [] _ (by unfold PlainLine; decide) (by decide)
    (by rw [hM]; simp), file_args_nil]
  rfl

theorem splitOnP_length_le (p : Nat → Bool) (s : List Nat) :
    ∀ t ∈ s.splitOnP p, t.length ≤ s.length := by
  induction s with
  | nil => simp
  | cons x xs ih =>
    intro t ht
    rw [List.splitOnP_cons] at ht
    by_cases hx : p x = true
    · rw [if_pos hx] at ht
      rcases List.mem_cons.mp ht with e | hm
      · subst e; simp
      · have := ih t hm
        simp only [List.length_cons]
        omega
    · rw [if_neg hx] at ht
      cases hsp : List.splitOnP p xs with
      | nil => rw [hsp] at ht; simp [List.modifyHead] at ht
      | cons h tl =>
        rw [hsp] at ht ih
        simp only [List.modifyHead, List.mem_cons] at ht
        rcases ht with e | hm
        · subst e
          have := ih h (List.mem_cons_self _ _)
          simp only [List.length_cons]
          omega
        · have := ih t (List.mem_cons_of_mem _ hm)
          simp only [List.length_cons]
          omega

theorem tokens_length_le (d s : List Nat) : ∀ t ∈ tokens d s, t.length ≤ s.length := by
  intro t ht
  exact splitOnP_length_le _ s t (List.mem_of_mem_filter ht)

theorem cstr_length_le (s : List Nat) : (cstr s).length ≤ s.length :=
  (List.takeWhile_sublist _).length_le

/-- The command-file loop appends to `argv`, never fills more than `MAX_ARGS` slots, and every
argument it appends is a string of at most `MAX_ARG_LENGTH - 1` bytes. -/
theorem file_loop_bounds (fuel : Nat) (fp : List Nat) (argv : List Arg) :
    (file_loop fuel fp argv).length ≤ max argv.length MAX_ARGS ∧
      ∃ extra, file_loop fuel fp argv = argv ++ extra ∧
        ∀ a ∈ extra, ∃ s, a = some s ∧ s.length ≤ MAX_ARG_LENGTH - 1 := by
  induction fuel generalizing fp argv with
  | zero => exact ⟨by simp [file_loop], [], by simp [file_loop], by simp⟩
  | succ fuel ih =>
    unfold file_loop
    split
    · exact ⟨by omega, [], by simp, by simp⟩
    · rename_i hlt
      cases hg : fgets MAX_ARG_LENGTH fp with
      | none => exact ⟨by simp, [], by simp, by simp⟩
      | some p =>
        obtain ⟨buf, rest⟩ := p
        have hbuf : buf.length ≤ MAX_ARG_LENGTH - 1 := by
          cases fp with
          | nil => simp [fgets] at hg
          | cons b bs =>
            simp only [fgets, Option.some.injEq, Prod.mk.injEq] at hg
            rw [← hg.1]
            exact read_line_length_le _ _
        have htok := (strtok_tokens (buf ++ [0]) 0 (bytes "\r\n") crlf_has_no_nul).1
        rw [List.drop_zero, cstr_append_nul] at htok
        simp only
        cases hs : strtok (buf ++ [0]) 0 (bytes "\r\n") with
        | mk tok rest2 =>
          rw [hs] at htok
          simp only at htok
          cases tok with
          | none => exact ih rest argv
          | some t =>
            simp only
            obtain ⟨h1, extra, h2, h3⟩ := ih rest (argv ++ [some t])
            have ht : t ∈ tokens (bytes "\r\n") (cstr buf) := List.mem_of_mem_head? htok.symm
            have htl : t.length ≤ MAX_ARG_LENGTH - 1 :=
              Nat.le_trans (tokens_length_le _ _ t ht)
                (Nat.le_trans (cstr_length_le buf) hbuf)
            refine ⟨?_, some t :: extra, ?_, ?_⟩
            · simp only [List.length_append, List.length_cons, List.length_nil] at h1
              omega
            · rw [h2]; simp
            · intro a ha
              rcases List.mem_cons.mp ha with e | hm
              · exact ⟨t, e, htl⟩
              · exact h3 a hm

/-- The shape of an argument vector that `get_args` built itself: between 1 and `MAX_ARGS`
slots, `argc` of them, and behind slot 0 only strings of at most `MAX_ARG_LENGTH - 1` bytes. -/
theorem adopted_of_append (a0 : Arg) (extra : List Arg)
    (hlen : ([a0] ++ extra).length ≤ MAX_ARGS)
    (hex : ∀ a ∈ extra, ∃ s, a = some s ∧ s.length ≤ MAX_ARG_LENGTH - 1) :
    (1 : Int) ≤ (([a0] ++ extra).length : Nat) ∧
      ((([a0] ++ extra).length : Nat) : Int) ≤ (MAX_ARGS : Nat) ∧
      ([a0] ++ extra).length ≤ MAX_ARGS ∧
      ∀ a ∈ ([a0] ++ extra).drop 1, ∃ s, a = some s ∧ s.length ≤ MAX_ARG_LENGTH - 1 := by
  refine ⟨?_, ?_, hlen, ?_⟩
  · simp only [List.length_append, List.length_cons, List.length_nil]
    omega
  · exact_mod_cast hlen
  · simpa using hex

theorem args_from_command_file_some (fp : List Nat) (argc : Int) (argv : List Arg)
    (h : argc ≤ 1) :
    args_from_command_file (some fp) argc argv =
      ((((file_loop (fp.length + 1) fp [argv.headD none]).length : Nat) : Int),
        file_loop (fp.length + 1) fp [argv.headD none], true) := by
  simp [args_from_command_file, h]

theorem args_from_command_file_none (argc : Int) (argv : List Arg) (h : argc ≤ 1) :
    args_from_command_file none argc argv = (argc, argv, true) := by
  simp [args_from_command_file, h]

/-- With `argc <= 1`, a record without arguments and no command file, `get_args` leaves `argc`
and `argv` as the caller passed them. -/
theorem get_args_no_source (L : Layout) (misc : Volume) (w : World) (argc : Int)
    (argv : List Arg) (h : argc ≤ 1) (hrec : (record_read L misc w).recovery.headD 0 = 0) :
    (get_args L misc w none argc argv).argc = argc ∧
      (get_args L misc w none argc argv).argv = argv := by
  have hb := (args_from_boot_message_tokens L (record_read L misc w) argc argv h).2
    (by rw [empty_recovery_has_no_token L _ hrec]; simp)
  rw [get_args_argv, get_args_argc, hb.1, hb.2, args_from_command_file_none _ _ h]
  exact ⟨rfl, rfl⟩

/-! ## Explicit arguments win (C1) -/

/-- C1: when the caller passes explicit arguments (`argc > 1`), `get_args` leaves `argc` and
`argv` exactly as passed, whatever the record and the command file hold, and never opens the
command file. -/
theorem get_args_explicit_args_verbatim (L : Layout) (misc : Volume) (w : World)
    (file : Option (List Nat)) (argc : Int) (argv : List Arg) (h : 1 < argc) :
    (get_args L misc w file argc argv).argc = argc ∧
      (get_args L misc w file argc argv).argv = argv ∧
      (get_args L misc w file argc argv).fopen_called = false := by
  have h1 : ¬ argc ≤ 1 := by omega
  simp [get_args, args_from_boot_message, args_from_command_file, h1]

/-- C1 witness: two explicit arguments, unconfigured volume, a command file present. -/
theorem get_args_explicit_args_verbatim_witness :
    (get_args spec_layout misc_unset no_storage (some (bytes "--wipe_data\n")) 2
        [some (bytes "recovery"), some (bytes "--show_text")]).argc = 2 ∧
      (get_args spec_layout misc_unset no_storage (some (bytes "--wipe_data\n")) 2
        [some (bytes "recovery"), some (bytes "--show_text")]).argv =
          [some (bytes "recovery"), some (bytes "--show_text")] ∧
      (get_args spec_layout misc_unset no_storage (some (bytes "--wipe_data\n")) 2
        [some (bytes "recovery"), some (bytes "--show_text")]).fopen_called = false :=
  get_args_explicit_args_verbatim spec_layout misc_unset no_storage _ 2 _ (by decide)

/-! ## Arguments from the boot message (C2) -/

/-- C2 (amended): with `argc <= 1` and a record whose `recovery` string (last byte forced to
NUL) has "recovery" as first token and at least one more token, the effective argument list is
the string "recovery" (a copy of the sentinel token, not the caller's argument 0) followed by
the remaining tokens in order, at most `MAX_ARGS - 1 = 99` of them; the command file is not
opened. -/
theorem get_args_adopts_boot_message (L : Layout) (misc : Volume) (w : World)
    (file : Option (List Nat)) (argc : Int) (argv : List Arg) (t : List Nat)
    (ts : List (List Nat)) (h : argc ≤ 1)
    (htok : tokens (bytes "\n") (cstr ((record_read L misc w).recovery.set (L.recovery - 1) 0)) =
      bytes "recovery" :: t :: ts) :
    (get_args L misc w file argc argv).argv =
        some (bytes "recovery") :: ((t :: ts).take 99).map some ∧
      (get_args L misc w file argc argv).argc = 1 + min 99 ((ts.length : Int) + 1) ∧
      (get_args L misc w file argc argv).fopen_called = false := by
  obtain ⟨h1, h2, h3⟩ := get_args_of_boot_tokens L misc w file argc argv t ts h htok
  refine ⟨h1, ?_, h3⟩
  rw [h2, h1]
  have e : MAX_ARGS - 1 = 99 := rfl
  simp only [e, List.length_cons, List.length_map, List.length_take]
  omega

/-- C2 witness: the record "recovery\n--wipe_data\n" read from the block device. -/
theorem get_args_adopts_boot_message_witness :
    (get_args spec_layout misc_emmc (emmc_holding spec_layout
        (record_with_recovery spec_layout (bytes "recovery\n--wipe_data\n"))) none 1
        [some (bytes "recovery")]).argv =
        some (bytes "recovery") :: ((bytes "--wipe_data" :: []).take 99).map some ∧
      (get_args spec_layout misc_emmc (emmc_holding spec_layout
        (record_with_recovery spec_layout (bytes "recovery\n--wipe_data\n"))) none 1
        [some (bytes "recovery")]).argc = 1 + min 99 ((([] : List (List Nat)).length : Int) + 1) ∧
      (get_args spec_layout misc_emmc (emmc_holding spec_layout
        (record_with_recovery spec_layout (bytes "recovery\n--wipe_data\n"))) none 1
        [some (bytes "recovery")]).fopen_called = false :=
  get_args_adopts_boot_message spec_layout misc_emmc _ none 1 [some (bytes "recovery")]
    (bytes "--wipe_data") [] (by decide) sample_boot_tokens

/-- C2 counterexample: called as "/sbin/recovery" with the record "recovery\n--wipe_data\n",
`get_args` resolves ["recovery", "--wipe_data"]: argument 0 is the sentinel token, not the
caller's "/sbin/recovery". -/
theorem boot_message_replaces_argv0 :
    (get_args spec_layout misc_emmc (emmc_holding spec_layout
        (record_with_recovery spec_layout (bytes "recovery\n--wipe_data\n"))) none 1
        [some (bytes "/sbin/recovery")]).argv =
        [some (bytes "recovery"), some (bytes "--wipe_data")] ∧
      [some (bytes "recovery"), some (bytes "--wipe_data")] ≠
        [some (bytes "/sbin/recovery"), some (bytes "--wipe_data")] :=
  ⟨(get_args_of_boot_tokens spec_layout misc_emmc _ none 1 [some (bytes "/sbin/recovery")]
      (bytes "--wipe_data") [] (by decide) sample_boot_tokens).1, by decide⟩

/-! ## Arguments from the command file (C3) -/

/-- C3 (amended): with `argc <= 1`, a record whose `recovery` field starts with NUL (a record
that could not be read stays zeroed) and a command file whose lines are each at most 4095
bytes long and free of NUL and of carriage returns other than the one of a "\r\n" terminator,
with at most 99 of them non-empty, the effective argument list is the caller's argument 0
followed by one argument per non-empty line, in file order, equal to the line without its
terminator. -/
theorem get_args_adopts_command_file (L : Layout) (misc : Volume) (w : World)
    (lines : List Line) (last : List Nat) (argc : Int) (argv : List Arg) (h : argc ≤ 1)
    (hrec : (record_read L misc w).recovery.headD 0 = 0)
    (hplain : ∀ l ∈ lines, PlainLine l.1) (hlast : PlainLine last)
    (hcount : (nonempty_lines lines last).length ≤ MAX_ARGS - 1) :
    (get_args L misc w (some (file_text lines last)) argc argv).argv =
        argv.headD none :: (nonempty_lines lines last).map some ∧
      (get_args L misc w (some (file_text lines last)) argc argv).argc =
        1 + ((nonempty_lines lines last).length : Int) ∧
      (get_args L misc w (some (file_text lines last)) argc argv).fopen_called = true := by
  obtain ⟨h1, h2, h3⟩ := get_args_of_file L misc w (file_text lines last) argc argv h hrec
  have hM : MAX_ARGS - 1 = 99 := rfl
  have hM2 : MAX_ARGS = 100 := rfl
  have hfile := file_args_lines lines last [argv.headD none] hplain hlast
    (by simp only [List.length_cons, List.length_nil]; omega)
  rw [hfile] at h1 h2
  refine ⟨h1, ?_, h3⟩
  rw [h2]
  simp only [List.length_append, List.length_cons, List.length_nil, List.length_map]
  omega

/-- C3 witness: the unconfigured volume and the file with the lines `--update=pkg` and
`--locale=en` give `[argv0, "--update=pkg", "--locale=en"]`. -/
theorem get_args_adopts_command_file_witness :
    (get_args spec_layout misc_unset no_storage (some (file_text two_line_file [])) 1
        [some (bytes "/sbin/recovery")]).argv =
        [some (bytes "/sbin/recovery")].headD none ::
          (nonempty_lines two_line_file []).map some ∧
      (get_args spec_layout misc_unset no_storage (some (file_text two_line_file [])) 1
        [some (bytes "/sbin/recovery")]).argc =
        1 + ((nonempty_lines two_line_file []).length : Int) ∧
      (get_args spec_layout misc_unset no_storage (some (file_text two_line_file [])) 1
        [some (bytes "/sbin/recovery")]).fopen_called = true :=
  get_args_adopts_command_file spec_layout misc_unset no_storage two_line_file [] 1
    [some (bytes "/sbin/recovery")] (by decide)
    (by rw [record_read_unset]; exact zeroed_recovery_headD _)
    (by
      intro l hl
      simp only [two_line_file, List.mem_cons, List.mem_singleton, List.not_mem_nil,
        or_false] at hl
      rcases hl with e | e <;> subst e <;> unfold PlainLine <;> decide)
    (by unfold PlainLine; decide) (by decide)

/-- C3 counterexample: the one-line file of 4096 letters `a` is not cut to one argument of 4095
bytes; `fgets` hands the line over in two buffers and `get_args` adopts two arguments, the
first 4095 letters and the remaining letter. -/
theorem overlong_line_becomes_two_arguments :
    (get_args spec_layout misc_unset no_storage (some long_line_file) 1
        [some (bytes "/sbin/recovery")]).argv =
        [some (bytes "/sbin/recovery"), some (List.replicate 4095 97), some [97]] ∧
      (get_args spec_layout misc_unset no_storage (some long_line_file) 1
        [some (bytes "/sbin/recovery")]).argc = 3 := by
  obtain ⟨h1, h2, -⟩ := get_args_of_file spec_layout misc_unset no_storage long_line_file 1
    [some (bytes "/sbin/recovery")] (by decide)
    (by rw [record_read_unset]; exact zeroed_recovery_headD _)
  have hfile := file_args_overlong 4095 rfl (some (bytes "/sbin/recovery"))
  have e : file_args long_line_file [[some (bytes "/sbin/recovery")].headD none] =
      [some (bytes "/sbin/recovery"), some (List.replicate 4095 97), some [97]] := hfile
  rw [e] at h1 h2
  exact ⟨h1, h2⟩

/-! ## The persisted record forces recovery (C4) -/

/-- C7 (amended): when the record fits in one page, `sizeof(bootloader_message) ≤ write_size`,
a successful `set_bootloader_message_mtd` hands `mtd_write_data` a region of `MISC_PAGES` pages
that equals the bytes read before at every index outside page `MISC_COMMAND_PAGE`. -/
theorem set_mtd_preserves_sibling_pages (L : Layout) (msg : bootloader_message) (v : Volume)
    (w w' : World) (part : MtdPartition) (ws : Nat)
    (hp : w.mtd v.blk_device = some part) (hws : part.write_size = some ws)
    (hfit : L.sizeof ≤ ws)
    (hok : set_bootloader_message_mtd L msg v w = (0, w')) :
    ∃ region, Event.mtd_write_data v.blk_device region ∈ w'.log ∧
      region.length = ws * MISC_PAGES ∧
      (∃ part', w'.mtd v.blk_device = some part' ∧ part'.data.take (ws * MISC_PAGES) = region) ∧
      ∀ i, i < ws * MISC_COMMAND_PAGE ∨ ws * (MISC_COMMAND_PAGE + 1) ≤ i →
        region[i]? = (part.data.take (ws * MISC_PAGES))[i]? := by
  obtain ⟨part1, ws1, hp1, hws1, -, hlen, hp', hlog⟩ := set_mtd_success L msg v w w' hok
  rw [hp] at hp1
  cases hp1
  rw [hws] at hws1
  cases hws1
  have hD : (part.data.take (ws * MISC_PAGES)).length = ws * MISC_PAGES := by
    simp; omega
  have hs : (msg.toBytes.take L.sizeof).length ≤ ws := by
    simp; omega
  have hb : ws * MISC_COMMAND_PAGE + (msg.toBytes.take L.sizeof).length ≤
      (part.data.take (ws * MISC_PAGES)).length := by
    rw [hD]; simp only [MISC_PAGES, MISC_COMMAND_PAGE]; omega
  have hci := copy_in_length _ _ _ hb
  refine ⟨copy_in (part.data.take (ws * MISC_PAGES)) (ws * MISC_COMMAND_PAGE)
    (msg.toBytes.take L.sizeof), ?_, ?_, ⟨_, hp', ?_⟩, ?_⟩
  · rw [hlog]; simp
  · rw [hci, hD]
  · exact List.take_left' (by rw [hci, hD])
  · intro i hi
    apply copy_in_getElem?_outside _ _ _ _ hb
    simp only [MISC_COMMAND_PAGE] at hi ⊢
    omega

/-- C7 witness: the zero-filled sample record on erased flash with pages of 2048 bytes. -/
theorem set_mtd_preserves_sibling_pages_witness :
    ∃ region, Event.mtd_write_data misc_mtd.blk_device region ∈
        (set_bootloader_message_mtd spec_layout sample_record misc_mtd (erased_flash 2048)).2.log ∧
      region.length = 2048 * MISC_PAGES ∧
      (∃ part', (set_bootloader_message_mtd spec_layout sample_record misc_mtd
          (erased_flash 2048)).2.mtd misc_mtd.blk_device = some part' ∧
        part'.data.take (2048 * MISC_PAGES) = region) ∧
      ∀ i, i < 2048 * MISC_COMMAND_PAGE ∨ 2048 * (MISC_COMMAND_PAGE + 1) ≤ i →
        region[i]? = ((erased_partition 2048).data.take (2048 * MISC_PAGES))[i]? :=
  set_mtd_preserves_sibling_pages spec_layout sample_record misc_mtd (erased_flash 2048) _
    (erased_partition 2048) 2048 rfl rfl (by norm_num [spec_layout, Layout.sizeof])
    (pair_of_fst _ _ (erased_flash_set_eval spec_layout sample_record 2048).1)

/-- C7 counterexample: with pages of 512 bytes and the 840-byte record, a successful `set` of
the zeroed record changes byte 1024, the first byte of page 2, from 0xFF to 0. -/
theorem set_mtd_small_page_overwrites_next_page :
    (set_bootloader_message_mtd spec_layout (bootloader_message.zeroed spec_layout) misc_mtd
        (erased_flash 512)).1 = 0 ∧
      ((set_bootloader_message_mtd spec_layout (bootloader_message.zeroed spec_layout) misc_mtd
        (erased_flash 512)).2.mtd (bytes "misc")).map (fun p => p.data[1024]?) = some (some 0) ∧
      ((erased_flash 512).mtd (bytes "misc")).map (fun p => p.data[1024]?) =
        some (some 255) :=
  ⟨(erased_flash_set_eval spec_layout _ 512).1,
    erased_flash_set_zeroed_byte spec_layout 512 512 (by norm_num [spec_layout, Layout.sizeof])
      (by norm_num [spec_layout, Layout.sizeof, MISC_PAGES]),
    congrArg some (erased_partition_getElem? 512 1024 (by norm_num [MISC_PAGES]))⟩

/-! ## Facade dispatch (C8) -/

/-- C8: for a volume whose `fs_type` is neither "mtd" nor "emmc" (the empty string included),
`get_bootloader_message` and `set_bootloader_message` return -1, leave the output record and
the storage (its call log included) untouched; `read_wipe_package` does the same with `false`
for every `fs_type` other than "emmc", "mtd" included. -/
theorem facade_dispatch_closed (L : Layout) (misc : Volume) (w : World) :
    (misc.fs_type ≠ bytes "mtd" → misc.fs_type ≠ bytes "emmc" →
      (∀ out, get_bootloader_message L misc out w = (-1, out, w)) ∧
      (∀ msg, set_bootloader_message L misc msg w = (-1, w))) ∧
    (misc.fs_type ≠ bytes "emmc" →
      ∀ size out, read_wipe_package L misc size out w = (false, out, w)) := by
  refine ⟨fun h1 h2 => ⟨fun out => ?_, fun msg => ?_⟩, fun h2 size out => ?_⟩
  · simp [get_bootloader_message, h1, h2]
  · simp [set_bootloader_message, h1, h2]
  · simp [read_wipe_package, h2]

/-- C8 witness: the unconfigured volume for the record operations, the raw-flash volume for
`read_wipe_package`. -/
theorem facade_dispatch_closed_witness :
    ((∀ out, get_bootloader_message spec_layout misc_unset out no_storage =
        (-1, out, no_storage)) ∧
      (∀ msg, set_bootloader_message spec_layout misc_unset msg no_storage =
        (-1, no_storage))) ∧
    (∀ size out, read_wipe_package spec_layout misc_mtd size out (erased_flash 2048) =
      (false, out, erased_flash 2048)) :=
  ⟨(facade_dispatch_closed spec_layout misc_unset no_storage).1 (by decide) (by decide),
    (facade_dispatch_closed spec_layout misc_mtd (erased_flash 2048)).2 (by decide)⟩

/-! ## The persisted text (C9) -/

/-- C10 (amended): with `argc <= 1`, for every record and every command file, `get_args`
returns with `argc <= MAX_ARGS = 100`.  Either no source supplied arguments and `argc`, `argv`
are the caller's (so `argc` may be 0 or negative when the caller passed that), or
`1 <= argc`, exactly the slots below `argc` were written, all below `MAX_ARGS`, and every
adopted directive is at most `MAX_ARG_LENGTH - 1 = 4095` bytes long.  The fuel of the file loop
is never used up. -/
theorem get_args_bounds (L : Layout) (misc : Volume) (w : World) (file : Option (List Nat))
    (argc : Int) (argv : List Arg) (h : argc ≤ 1) (hcap : L.recovery < MAX_ARG_LENGTH) :
    (get_args L misc w file argc argv).argc ≤ (MAX_ARGS : Nat) ∧
    (argc = 1 → 1 ≤ (get_args L misc w file argc argv).argc) ∧
    (((get_args L misc w file argc argv).argc = argc ∧
        (get_args L misc w file argc argv).argv = argv) ∨
      (1 ≤ (get_args L misc w file argc argv).argc ∧
        (get_args L misc w file argc argv).argc =
          (((get_args L misc w file argc argv).argv.length : Nat) : Int) ∧
        (get_args L misc w file argc argv).argv.length ≤ MAX_ARGS ∧
        ∀ a ∈ (get_args L misc w file argc argv).argv.drop 1,
          ∃ s, a = some s ∧ s.length ≤ MAX_ARG_LENGTH - 1)) ∧
    (∀ fp a fuel, file = some fp → fp.length < fuel →
      file_loop fuel fp a = file_loop (fp.length + 1) fp a) := by
  have hM : MAX_ARGS = 100 := rfl
  have hA : MAX_ARG_LENGTH = 4096 := rfl
  -- what a run of the file loop yields
  have hfile : ∀ (fp : List Nat) (a0 : Arg),
      (1 : Int) ≤ ((file_loop (fp.length + 1) fp [a0]).length : Nat) ∧
      (((file_loop (fp.length + 1) fp [a0]).length : Nat) : Int) ≤ (MAX_ARGS : Nat) ∧
      (file_loop (fp.length + 1) fp [a0]).length ≤ MAX_ARGS ∧
      ∀ a ∈ (file_loop (fp.length + 1) fp [a0]).drop 1,
        ∃ s, a = some s ∧ s.length ≤ MAX_ARG_LENGTH - 1 := by
    intro fp a0
    obtain ⟨h1, extra, h2, h3⟩ := file_loop_bounds (fp.length + 1) fp [a0]
    rw [h2] at h1 ⊢
    exact adopted_of_append a0 extra (by simpa [hM] using h1) h3
  refine ⟨?_, ?_, ?_, fun fp a fuel _ hf => file_loop_fuel _ _ _ _ hf (by omega)⟩
  all_goals
    rw [get_args_argc]
    try rw [get_args_argv]
    have hb := args_from_boot_message_tokens L (record_read L misc w) argc argv h
    have hlenrec : (cstr ((record_read L misc w).recovery.set (L.recovery - 1) 0)).length ≤
        MAX_ARG_LENGTH - 1 := by
      have h1 := cstr_length_le ((record_read L misc w).recovery.set (L.recovery - 1) 0)
      rw [List.length_set, (record_read_wellSized L misc w).2.2.1] at h1
      omega
    have htl := tokens_length_le (bytes "\n")
      (cstr ((record_read L misc w).recovery.set (L.recovery - 1) 0))
    generalize tokens (bytes "\n")
      (cstr ((record_read L misc w).recovery.set (L.recovery - 1) 0)) = toks at hb htl
    by_cases hh : toks.head? = some (bytes "recovery")
    · obtain ⟨hv, hc⟩ := hb.1 hh
      have hshape : ∃ extra, (toks.take MAX_ARGS).map some = [some (bytes "recovery")] ++ extra ∧
          ∀ a ∈ extra, ∃ s, a = some s ∧ s.length ≤ MAX_ARG_LENGTH - 1 := by
        cases toks with
        | nil => simp at hh
        | cons t ts =>
          simp only [List.head?_cons, Option.some.injEq] at hh
          subst hh
          refine ⟨(ts.take (MAX_ARGS - 1)).map some, rfl, ?_⟩
          intro a ha
          obtain ⟨s, hs, rfl⟩ := List.mem_map.mp ha
          exact ⟨s, rfl, Nat.le_trans
            (htl s (List.mem_cons_of_mem _ (List.mem_of_mem_take hs))) hlenrec⟩
      obtain ⟨extra, hsh, hex⟩ := hshape
      have hlen100 : ([some (bytes "recovery")] ++ extra).length ≤ MAX_ARGS := by
        rw [← hsh, List.length_map, List.length_take]
        omega
      have had := adopted_of_append _ extra hlen100 hex
      rw [hsh] at hv
      replace hc : (args_from_boot_message L (record_read L misc w) argc argv).1 =
          ((([some (bytes "recovery")] ++ extra).length : Nat) : Int) := by
        rw [hc, ← hsh, List.length_map]
      by_cases hbig : 1 < (args_from_boot_message L (record_read L misc w) argc argv).1
      · rw [args_from_command_file_skip _ _ _ hbig]
        simp only [hv, hc]
        first
          | exact had.2.1
          | exact fun _ => had.1
          | exact Or.inr ⟨had.1, trivial, had.2.2⟩
      · cases file with
        | none =>
          rw [args_from_command_file_none _ _ (by omega)]
          simp only [hv, hc]
          first
            | exact had.2.1
            | exact fun _ => had.1
            | exact Or.inr ⟨had.1, trivial, had.2.2⟩
        | some fp =>
          rw [args_from_command_file_some _ _ _ (by omega)]
          simp only
          first
            | exact (hfile fp _).2.1
            | exact fun _ => (hfile fp _).1
            | exact Or.inr ⟨(hfile fp _).1, trivial, (hfile fp _).2.2⟩
    · obtain ⟨hv, hc⟩ := hb.2 hh
      rw [hv, hc]
      cases file with
      | none =>
        rw [args_from_command_file_none _ _ h]
        simp only
        first
          | exact (by rw [hM]; omega)
          | exact fun e => by omega
          | exact Or.inl ⟨trivial, trivial⟩
      | some fp =>
        rw [args_from_command_file_some _ _ _ h]
        simp only
        first
          | exact (hfile fp _).2.1
          | exact fun _ => (hfile fp _).1
          | exact Or.inr ⟨(hfile fp _).1, trivial, (hfile fp _).2.2⟩

/-- C10 witness: the unconfigured volume and the two-line command file. -/
theorem get_args_bounds_witness :
    (get_args spec_layout misc_unset no_storage (some (file_text two_line_file [])) 1
        [some (bytes "/sbin/recovery")]).argc ≤ (MAX_ARGS : Nat) ∧
    ((1 : Int) = 1 → 1 ≤ (get_args spec_layout misc_unset no_storage
        (some (file_text two_line_file [])) 1 [some (bytes "/sbin/recovery")]).argc) ∧
    (((get_args spec_layout misc_unset no_storage (some (file_text two_line_file [])) 1
          [some (bytes "/sbin/recovery")]).argc = 1 ∧
        (get_args spec_layout misc_unset no_storage (some (file_text two_line_file [])) 1
          [some (bytes "/sbin/recovery")]).argv = [some (bytes "/sbin/recovery")]) ∨
      (1 ≤ (get_args spec_layout misc_unset no_storage (some (file_text two_line_file [])) 1
          [some (bytes "/sbin/recovery")]).argc ∧
        (get_args spec_layout misc_unset no_storage (some (file_text two_line_file [])) 1
          [some (bytes "/sbin/recovery")]).argc =
          (((get_args spec_layout misc_unset no_storage (some (file_text two_line_file [])) 1
            [some (bytes "/sbin/recovery")]).argv.length : Nat) : Int) ∧
        (get_args spec_layout misc_unset no_storage (some (file_text two_line_file [])) 1
          [some (bytes "/sbin/recovery")]).argv.length ≤ MAX_ARGS ∧
        ∀ a ∈ (get_args spec_layout misc_unset no_storage (some (file_text two_line_file [])) 1
            [some (bytes "/sbin/recovery")]).argv.drop 1,
          ∃ s, a = some s ∧ s.length ≤ MAX_ARG_LENGTH - 1)) ∧
    (∀ fp a fuel, some (file_text two_line_file []) = some fp → fp.length < fuel →
      file_loop fuel fp a = file_loop (fp.length + 1) fp a) :=
  get_args_bounds spec_layout misc_unset no_storage (some (file_text two_line_file [])) 1
    [some (bytes "/sbin/recovery")] (by decide) (by decide)

/-- C10 counterexample: called with `argc = 0`, with no readable record and no command file,
`get_args` returns with `argc = 0`, below the claimed lower bound 1. -/
theorem argc_zero_stays_zero :
    (get_args spec_layout misc_unset no_storage none 0 []).argc = 0 ∧
      ¬ (1 ≤ (get_args spec_layout misc_unset no_storage none 0 []).argc) := by
  have h := (get_args_no_source spec_layout misc_unset no_storage 0 [] (by decide)
    (by rw [record_read_unset]; exact zeroed_recovery_headD _)).1
  rw [h]
  exact ⟨rfl, by decide⟩

end Bootloader
